import Mathlib

/-!
Shallow embedding of the WhisperDesktop transcription core
(`src/src-tauri/src/lib.rs`) and proofs about its specification claims.

Conventions of the embedding:
* Rust `&str`/`String` values are Lean `String`s; character-level work is
  done on `String.data : List Char`.  Rust compares strings by UTF-8 bytes,
  which coincides with code-point order, i.e. with `Char` order.
* Rust `f64` arithmetic on segment start times is modelled with exact
  rationals `ℚ`.  Every start time in the program is produced by JSON
  parsing or by sums/divisions of such values, so no NaN can arise and
  `partial_cmp` is a total order, matching the order on `ℚ`.
* `chrono::NaiveTime` is modelled as the number of seconds since
  midnight (`ℕ`); `NaiveTime::from_hms_opt` validates the ranges and
  `Ord`/`num_seconds_from_midnight` coincide with the `ℕ` order/value.
* Fallible Rust code returns `Option`/`Except String`.
-/

/-- Characters with the Unicode `White_Space` property, the set trimmed by
Rust's `str::trim`. -/
def rustIsWhitespace (c : Char) : Bool :=
  c ∈ [ '\t', '\n', (Char.ofNat 0x0B), (Char.ofNat 0x0C), '\r', ' ',
    (Char.ofNat 0x85), (Char.ofNat 0xA0), (Char.ofNat 0x1680),
    (Char.ofNat 0x2000), (Char.ofNat 0x2001), (Char.ofNat 0x2002),
    (Char.ofNat 0x2003), (Char.ofNat 0x2004), (Char.ofNat 0x2005),
    (Char.ofNat 0x2006), (Char.ofNat 0x2007), (Char.ofNat 0x2008),
    (Char.ofNat 0x2009), (Char.ofNat 0x200A), (Char.ofNat 0x2028),
    (Char.ofNat 0x2029), (Char.ofNat 0x202F), (Char.ofNat 0x205F),
    (Char.ofNat 0x3000)]

/-- Rust `str::trim` on a character list: drop whitespace from both ends. -/
def trimChars (l : List Char) : List Char :=
  ((l.dropWhile rustIsWhitespace).reverse.dropWhile rustIsWhitespace).reverse

/-- Rust `str::trim` on strings. -/
def rustTrim (s : String) : String :=
  ⟨trimChars s.data⟩

/-- Rust `str::split(c)`: the list of chunks delimited by `c` (an empty
input yields one empty chunk, exactly as the Rust iterator does). -/
def splitChar (c : Char) : List Char → List (List Char)
  | [] => [[]]
  | x :: xs =>
    match splitChar c xs with
    | [] => [[]]
    | y :: ys => if x = c then [] :: y :: ys else (x :: y) :: ys

/-- Rust `str::split_once(c)`: the chunks before and after the first
occurrence of `c`, or `none` when `c` does not occur. -/
def splitOnceChar (c : Char) : List Char → Option (List Char × List Char)
  | [] => none
  | x :: xs =>
    if x = c then some ([], xs)
    else
      match splitOnceChar c xs with
      | some (pre, post) => some (x :: pre, post)
      | none => none

/-- Rust `str::strip_suffix(suf)` on character lists. -/
def stripSuffixChars (suf l : List Char) : Option (List Char) :=
  if suf.isSuffixOf l then some (l.take (l.length - suf.length)) else none

/-- Value of a list of ASCII digits. -/
def digitsToNat (l : List Char) : ℕ :=
  l.foldl (fun acc c => acc * 10 + (c.toNat - ('0').toNat)) 0

/-- Rust `str::parse::<u32>()` restricted to the information the program
uses: an optional leading `+` followed by one or more ASCII digits.  A
value overflowing `u32` makes the Rust parse fail; every caller feeds the
result to `NaiveTime::from_hms_opt`, which rejects everything `≥ 24`
(resp. `≥ 60`), so representing overflow as the large value is
observationally equivalent and we keep the plain numeral. -/
def parseU32 (l : List Char) : Option ℕ :=
  let digits := match l with
    | '+' :: rest => rest
    | _ => l
  if digits ≠ [] ∧ digits.all (fun c => c.isDigit) ∧ digitsToNat digits < 2 ^ 32 then
    some (digitsToNat digits)
  else
    none

/-- Model of `chrono::NaiveTime::from_hms_opt`: seconds since midnight when
the components are in range, `none` otherwise. -/
def from_hms_opt (h m s : ℕ) : Option ℕ :=
  if h < 24 ∧ m < 60 ∧ s < 60 then some (h * 3600 + m * 60 + s) else none

/-- Embedding of `parse_japanese_time` (lib.rs 238-247): trim, split at
`時` and `分`, strip a `秒` suffix, parse the three numeric parts and
validate them as a wall-clock time. -/
def parse_japanese_time (value : List Char) : Option ℕ := do
  let trimmed := trimChars value
  let (hourPart, rest) ← splitOnceChar '時' trimmed
  let (minutePart, rest) ← splitOnceChar '分' rest
  let secondPart ← stripSuffixChars [ '秒'] rest
  let hour ← parseU32 hourPart
  let minute ← parseU32 minutePart
  let second ← parseU32 secondPart
  from_hms_opt hour minute second

/-- Embedding of `parse_hyphen_time` (lib.rs 249-258): split at `-`,
require exactly three numeric parts, validate as a wall-clock time. -/
def parse_hyphen_time (value : List Char) : Option ℕ :=
  match splitChar '-' value with
  | [h, m, s] => do
    let hour ← parseU32 h
    let minute ← parseU32 m
    let second ← parseU32 s
    from_hms_opt hour minute second
  | _ => none

/-- Embedding of `parse_time_any` (lib.rs 260-269).  The Rust code first
tries `NaiveTime::parse_from_str(value, "%H-%M-%S")` and falls back to
`parse_hyphen_time`; every string the chrono format accepts (two digit
groups joined by `-`, fully consumed, in-range) is also accepted by
`parse_hyphen_time` with the same value, so the `or_else` chain collapses
to `parse_hyphen_time`. -/
def parse_time_any (value : List Char) : Option ℕ :=
  let jp :=
    if value.contains '時' || value.contains '分' || value.contains '秒' then
      parse_japanese_time value
    else
      none
  match jp with
  | some t => some t
  | none => parse_hyphen_time value

/-- Comparison of two naturals as Rust `Ord::cmp`. -/
def cmpNat (a b : ℕ) : Ordering :=
  if a < b then .lt else if a = b then .eq else .gt

/-- Lexicographic comparison of character lists: Rust `str::cmp` compares
UTF-8 bytes, which is exactly code-point lexicographic order. -/
def cmpChars : List Char → List Char → Ordering
  | [], [] => .eq
  | [], _ :: _ => .lt
  | _ :: _, [] => .gt
  | a :: as, b :: bs => if a < b then .lt else if b < a then .gt else cmpChars as bs

/-- Embedding of `compare_time_string` (lib.rs 271-278). -/
def compare_time_string (a b : String) : Ordering :=
  match parse_time_any a.data, parse_time_any b.data with
  | some ta, some tb => cmpNat ta tb
  | some _, none => .lt
  | none, some _ => .gt
  | none, none => cmpChars a.data b.data

/-- The filename with the `.ogg` extension stripped when present
(`strip_suffix(".ogg").unwrap_or(&file)`, lib.rs 229). -/
def ogg_stem (file : List Char) : List Char :=
  match stripSuffixChars (".ogg").data file with
  | some stripped => stripped
  | none => file

/-- The `track_time` extraction inside `parse_key` (lib.rs 229-233): strip
a `.ogg` suffix, then keep the part before the first `_` (`split_once`),
or the whole remainder when no `_` occurs. -/
def track_time_of_file (file : List Char) : List Char :=
  (ogg_stem file).takeWhile (fun c => c ≠ '_')

/-- Embedding of `parse_key` (lib.rs 217-236).  The Rust code draws five
items from the `split('/')` iterator and fails if a sixth exists, which is
exactly a match on a five-element split. -/
def parse_key (key : String) : Option (String × String × String × String × String) :=
  match splitChar '/' key.data with
  | [date, roomId, meetingTime, speaker, file] =>
    some (⟨date⟩, ⟨roomId⟩, ⟨meetingTime⟩, ⟨speaker⟩, ⟨track_time_of_file file⟩)
  | _ => none

/-- Embedding of `sanitize_time` (lib.rs 302-308): both branches of the
Rust conditional return `value.to_string()`, so it is the identity. -/
def sanitize_time (value : String) : String := value







/-- Model of `serde_json::Value`.  Numbers are exact rationals; `serde`'s
integer/float distinction is invisible through the accessors the program
uses (`as_f64` succeeds on every number). -/
inductive Json where
  | null
  | bool (b : Bool)
  | num (q : ℚ)
  | str (s : String)
  | arr (elems : List Json)
  | obj (fields : List (String × Json))

/-- Rust `Value::get(key)`: field lookup, `None` on non-objects.  (On
duplicate keys `serde_json` keeps the last occurrence; the embedding keeps
the first — no claim involves duplicate keys.) -/
def Json.get (v : Json) (key : String) : Option Json :=
  match v with
  | .obj fields =>
    match fields.find? (fun f => f.1 = key) with
    | some f => some f.2
    | none => none
  | _ => none

/-- Rust `Value::as_f64` (every JSON number converts). -/
def Json.asNum : Json → Option ℚ
  | .num q => some q
  | _ => none

/-- Rust `Value::as_str`. -/
def Json.asStr : Json → Option String
  | .str s => some s
  | _ => none

/-- Rust `Value::as_array`. -/
def Json.asArr : Json → Option (List Json)
  | .arr elems => some elems
  | _ => none

/-- JSON insignificant whitespace. -/
def jsonSkipWs (l : List Char) : List Char :=
  l.dropWhile (fun c => c = ' ' || c = '\t' || c = '\n' || c = '\r')

/-- Hex digit value, for `\uXXXX` escapes. -/
def jsonHexVal (c : Char) : Option ℕ :=
  if c.isDigit then some (c.toNat - ('0').toNat)
  else if 'a' ≤ c ∧ c ≤ 'f' then some (c.toNat - ('a').toNat + 10)
  else if 'A' ≤ c ∧ c ≤ 'F' then some (c.toNat - ('A').toNat + 10)
  else none

/-- JSON string body (after the opening quote): unescape until the closing
quote, returning the string and the remaining input.  Surrogate-pair
`\uXXXX` escapes are out of scope (no modelled input uses them). -/
def jsonString : ℕ → List Char → Option (List Char × List Char)
  | 0, _ => none
  | fuel + 1, l =>
    match l with
    | [] => none
    | '"' :: rest => some ([], rest)
    | '\\' :: esc =>
      match esc with
      | 'n' :: rest => (jsonString fuel rest).map (fun p => ( '\n' :: p.1, p.2))
      | 't' :: rest => (jsonString fuel rest).map (fun p => ( '\t' :: p.1, p.2))
      | 'r' :: rest => (jsonString fuel rest).map (fun p => ( '\r' :: p.1, p.2))
      | 'b' :: rest => (jsonString fuel rest).map (fun p => ((Char.ofNat 8) :: p.1, p.2))
      | 'f' :: rest => (jsonString fuel rest).map (fun p => ((Char.ofNat 12) :: p.1, p.2))
      | '"' :: rest => (jsonString fuel rest).map (fun p => ( '"' :: p.1, p.2))
      | '\\' :: rest => (jsonString fuel rest).map (fun p => ( '\\' :: p.1, p.2))
      | '/' :: rest => (jsonString fuel rest).map (fun p => ( '/' :: p.1, p.2))
      | 'u' :: h1 :: h2 :: h3 :: h4 :: rest =>
        match jsonHexVal h1, jsonHexVal h2, jsonHexVal h3, jsonHexVal h4 with
        | some a, some b, some c, some d =>
          (jsonString fuel rest).map
            (fun p => (Char.ofNat (((a * 16 + b) * 16 + c) * 16 + d) :: p.1, p.2))
        | _, _, _, _ => none
      | _ => none
    | c :: rest =>
      if c.toNat < 32 then none
      else (jsonString fuel rest).map (fun p => (c :: p.1, p.2))

/-- Leading ASCII digit run of a character list. -/
def jsonDigits (l : List Char) : List Char × List Char :=
  (l.takeWhile Char.isDigit, l.dropWhile Char.isDigit)

/-- JSON number at the head of the input, as an exact rational. -/
def jsonNumber (l : List Char) : Option (ℚ × List Char) :=
  let (neg, l1) := match l with
    | '-' :: rest => (true, rest)
    | _ => (false, l)
  match l1 with
  | [] => none
  | c0 :: _ =>
    if ¬ c0.isDigit then none
    else
      let (intDigits, r1) :=
        match l1 with
        | '0' :: rest => ([c0], rest)
        | _ => jsonDigits l1
      let intVal : ℚ := digitsToNat intDigits
      let fracStep : Option (ℚ × List Char) :=
        match r1 with
        | '.' :: rest =>
          let (ds, r) := jsonDigits rest
          if ds = [] then none
          else some (intVal + (digitsToNat ds : ℚ) / (10 : ℚ) ^ ds.length, r)
        | _ => some (intVal, r1)
      match fracStep with
      | none => none
      | some (mantissa, r2) =>
        let expStep : Option (ℚ × List Char) :=
          match r2 with
          | 'e' :: rest => some (1, rest)
          | 'E' :: rest => some (1, rest)
          | _ => none
        match expStep with
        | none => some ((if neg then -mantissa else mantissa), r2)
        | some (_, rest) =>
          let (expNeg, rest) := match rest with
            | '-' :: r => (true, r)
            | '+' :: r => (false, r)
            | _ => (false, rest)
          let (eds, r3) := jsonDigits rest
          if eds = [] then none
          else
            let scaled :=
              if expNeg then mantissa / (10 : ℚ) ^ digitsToNat eds
              else mantissa * (10 : ℚ) ^ digitsToNat eds
            some ((if neg then -scaled else scaled), r3)

mutual
/-- JSON value at the head of the input (fuel-indexed recursive descent;
the top-level wrapper supplies ample fuel). -/
def jsonValue : ℕ → List Char → Option (Json × List Char)
  | 0, _ => none
  | fuel + 1, l =>
    match jsonSkipWs l with
    | 'n' :: 'u' :: 'l' :: 'l' :: rest => some (.null, rest)
    | 't' :: 'r' :: 'u' :: 'e' :: rest => some (.bool true, rest)
    | 'f' :: 'a' :: 'l' :: 's' :: 'e' :: rest => some (.bool false, rest)
    | '"' :: rest =>
      match jsonString (rest.length + 1) rest with
      | some (s, rest) => some (.str ⟨s⟩, rest)
      | none => none
    | '[' :: rest =>
      (match jsonSkipWs rest with
      | ']' :: rest => some (.arr [], rest)
      | rest => jsonElems fuel rest [])
    | '{' :: rest =>
      (match jsonSkipWs rest with
      | '}' :: rest => some (.obj [], rest)
      | rest => jsonFields fuel rest [])
    | rest =>
      match jsonNumber rest with
      | some (q, rest) => some (.num q, rest)
      | none => none

/-- Comma-separated JSON array elements up to the closing bracket. -/
def jsonElems : ℕ → List Char → List Json → Option (Json × List Char)
  | 0, _, _ => none
  | fuel + 1, l, acc =>
    match jsonValue fuel l with
    | none => none
    | some (v, rest) =>
      match jsonSkipWs rest with
      | ',' :: rest => jsonElems fuel rest (acc ++ [v])
      | ']' :: rest => some (.arr (acc ++ [v]), rest)
      | _ => none

/-- Comma-separated JSON object fields up to the closing brace. -/
def jsonFields : ℕ → List Char → List (String × Json) → Option (Json × List Char)
  | 0, _, _ => none
  | fuel + 1, l, acc =>
    match jsonSkipWs l with
    | '"' :: rest =>
      match jsonString (rest.length + 1) rest with
      | none => none
      | some (k, rest) =>
        match jsonSkipWs rest with
        | ':' :: rest =>
          match jsonValue fuel rest with
          | none => none
          | some (v, rest) =>
            match jsonSkipWs rest with
            | ',' :: rest => jsonFields fuel rest (acc ++ [(⟨k⟩, v)])
            | '}' :: rest => some (.obj (acc ++ [(⟨k⟩, v)]), rest)
            | _ => none
        | _ => none
    | _ => none
end

/-- Rust `serde_json::from_str::<Value>`: parse a complete JSON document
(trailing garbage is an error). -/
def parseJsonText (s : String) : Option Json :=
  match jsonValue (2 * s.data.length + 8) s.data with
  | some (v, rest) => if jsonSkipWs rest = [] then some v else none
  | none => none

/-- The Rust `WhisperSegment` record (lib.rs 89-93): one recognized
utterance with its start offset (seconds) and text. -/
structure WhisperSegment where
  start : ℚ
  text : String
  deriving DecidableEq

/-- Typed deserialization of `WhisperSegment` as `serde` derives it: an
object whose `start` field is a number and whose `text` field is a string;
unknown fields are ignored, missing or mistyped ones fail. -/
def whisperSegmentFromJson (v : Json) : Option WhisperSegment :=
  match v with
  | .obj _ => do
    let s ← (v.get "start").bind Json.asNum
    let t ← (v.get "text").bind Json.asStr
    pure ⟨s, t⟩
  | _ => none

/-- Typed deserialization of `WhisperJson` (lib.rs 95-98): an object with
a `segments` array, every element of which deserializes as a
`WhisperSegment` (one bad element fails the whole parse, as serde does). -/
def whisperJsonFromJson (v : Json) : Option (List WhisperSegment) :=
  match v with
  | .obj _ =>
    (v.get "segments").bind (fun s =>
      match s with
      | .arr items => items.mapM whisperSegmentFromJson
      | _ => none)
  | _ => none

/-- Typed deserialization of `Vec<WhisperSegment>`: a bare array of
segment objects. -/
def whisperVecFromJson (v : Json) : Option (List WhisperSegment) :=
  match v with
  | .arr items => items.mapM whisperSegmentFromJson
  | _ => none

/-- Embedding of `normalize_json_contents` (lib.rs 881-892): strip a
leading BOM, trim, and clip to the outermost brace/bracket span when one
exists. -/
def normalize_json_contents (contents : String) : String :=
  let noBom := contents.data.dropWhile (fun c => c = Char.ofNat 0xFEFF)
  let trimmed := trimChars noBom
  if trimmed = [] then ⟨[]⟩
  else
    let openIdx := trimmed.findIdx? (fun c => c = '{' || c = '[')
    let closeIdx := (trimmed.reverse.findIdx? (fun c => c = '}' || c = ']')).map
      (fun i => trimmed.length - 1 - i)
    match openIdx, closeIdx with
    | some s, some e => if s ≤ e then ⟨(trimmed.drop s).take (e - s + 1)⟩ else ⟨trimmed⟩
    | _, _ => ⟨trimmed⟩

/-- Embedding of `parse_timestamp_to_seconds` (lib.rs 870-879): split at
`:`, parse hours and minutes, split the third chunk at `,` into seconds
and milliseconds (an unparseable or absent milliseconds chunk counts as
0); extra `:`/`,` chunks are ignored, exactly as the Rust iterator code
never looks at them.  The Rust `f64` parses here accept the decimal
grammar modelled by `parseF64Chars` (the special forms `inf`/`NaN` never
parse out of colon-separated timestamp chunks with a numeric shape and
are omitted). -/
def parseF64Chars (l : List Char) : Option ℚ :=
  let (neg, l1) := match l with
    | '-' :: rest => (true, rest)
    | '+' :: rest => (false, rest)
    | _ => (false, l)
  let (intDigits, r1) := jsonDigits l1
  let intOk := intDigits ≠ []
  let body : Option ℚ :=
    match r1 with
    | '.' :: rest =>
      let (fracDigits, r2) := jsonDigits rest
      if r2 ≠ [] then none
      else if intDigits = [] ∧ fracDigits = [] then none
      else some ((digitsToNat intDigits : ℚ) +
        (digitsToNat fracDigits : ℚ) / (10 : ℚ) ^ fracDigits.length)
    | [] => if intOk then some (digitsToNat intDigits : ℚ) else none
    | _ => none
  body.map (fun q => if neg then -q else q)

def parse_timestamp_to_seconds (value : String) : Option ℚ :=
  match splitChar ':' value.data with
  | hoursPart :: minutesPart :: secondsPart :: _ => do
    let hours ← parseF64Chars hoursPart
    let minutes ← parseF64Chars minutesPart
    match splitChar ',' secondsPart with
    | secondsChunk :: rest => do
      let seconds ← parseF64Chars secondsChunk
      let millis : ℚ := match rest with
        | [] => 0
        | m :: _ => (parseF64Chars m).getD 0
      pure (hours * 3600 + minutes * 60 + seconds + millis / 1000)
    | [] => none
  | _ => none

/-- Embedding of `segment_from_value` (lib.rs 811-842): coerce one JSON
object to a segment.  The element is dropped when it is not an object or
its `text` (defaulted to the empty string) trims to empty; the start time
branches on which container field is present: a numeric `start`, then the
`offsets` object (its `from` divided by 1000, defaulting to 0), then the
`timestamps` object (its `from` string parsed, defaulting to 0), then a
numeric `t0` divided by 100, and finally 0. -/
def segment_from_value (value : Json) : Option WhisperSegment :=
  match value with
  | .obj _ =>
    let text := ((value.get "text").bind Json.asStr).getD ""
    if (rustTrim text).data = [] then none
    else
      let start : ℚ :=
        match (value.get "start").bind Json.asNum with
        | some s => s
        | none =>
          match value.get "offsets" with
          | some offsets => (((offsets.get "from").bind Json.asNum).getD 0) / 1000
          | none =>
            match value.get "timestamps" with
            | some timestamps =>
              ((((timestamps.get "from").bind Json.asStr).bind
                parse_timestamp_to_seconds).getD 0)
            | none =>
              match (value.get "t0").bind Json.asNum with
              | some t0 => t0 / 100
              | none => 0
      some ⟨start, text⟩
  | _ => none

/-- Embedding of `segments_from_array` (lib.rs 797-809): collect the
coercible elements, `none` when no element survives. -/
def segments_from_array (items : List Json) : Option (List WhisperSegment) :=
  let segments := items.filterMap segment_from_value
  if segments.isEmpty then none else some segments

/-- Embedding of `extract_segments_from_value` (lib.rs 779-795): look for
a `segments` array, a `transcription` array, a `results.segments` array,
or a bare top-level array.  When `results` exists without `segments` the
Rust code falls through to the bare-array check, which necessarily fails
on an object; the embedding mirrors that fall-through. -/
def extract_segments_from_value (value : Json) : Option (List WhisperSegment) :=
  match value.get "segments" with
  | some segments => segments.asArr.bind segments_from_array
  | none =>
    match value.get "transcription" with
    | some transcription => transcription.asArr.bind segments_from_array
    | none =>
      match (value.get "results").bind (fun results => results.get "segments") with
      | some segments => segments.asArr.bind segments_from_array
      | none =>
        match value.asArr with
        | some array => segments_from_array array
        | none => none

/-- Embedding of `parse_json_lines` (lib.rs 844-868): parse each
non-empty trimmed line independently as JSON (failures skipped); a line
contributes its `extract_segments_from_value` list, or a single coerced
segment; `none` when nothing was collected.  Rust `str::lines` splits at
newlines and drops a carriage return, which the per-line trim removes
anyway. -/
def parse_json_lines (contents : String) : Option (List WhisperSegment) :=
  let segments := (splitChar '\n' contents.data).foldl
    (fun acc line =>
      let trimmed := trimChars line
      if trimmed = [] then acc
      else
        match parseJsonText ⟨trimmed⟩ with
        | none => acc
        | some value =>
          match extract_segments_from_value value with
          | some list => acc ++ list
          | none =>
            match segment_from_value value with
            | some segment => acc ++ [segment]
            | none => acc)
    []
  if segments.isEmpty then none else some segments

/-- The cleaned companion-text content (lib.rs 704-711): non-empty
trimmed lines joined with single spaces. -/
def cleaned_txt (text : String) : List Char :=
  List.intercalate (" ").data
    (((splitChar '\n' text.data).map trimChars).filter (fun l => l ≠ []))

/-- The error message of the parse cascade (lib.rs 694 and 720). -/
def whisperParseErrorMsg : String := "Failed to parse whisper JSON output"

/-- Embedding of the output-parsing tail of `run_whisper_segments`
(lib.rs 677-721), as a pure function of the JSON file content and the
optional companion text file content.  The attempts run in order on the
normalized content; note that a successful typed parse (attempts 1 and 2)
returns its segment list even when empty, and that a failure of the
generic `serde_json::Value` parse in attempt 4 aborts the whole operation
with `?` before attempt 5 or the text fallback can run. -/
def run_whisper_segments_parse (jsonContents : String) (txtContents : Option String) :
    Except String (List WhisperSegment) :=
  let json := normalize_json_contents jsonContents
  match (parseJsonText json).bind whisperJsonFromJson with
  | some segments => .ok segments
  | none =>
    match (parseJsonText json).bind whisperVecFromJson with
    | some segments => .ok segments
    | none =>
      match parse_json_lines json with
      | some segments => .ok segments
      | none =>
        match parseJsonText json with
        | none => .error whisperParseErrorMsg
        | some value =>
          match extract_segments_from_value value with
          | some segments => .ok segments
          | none =>
            match parse_json_lines json with
            | some segments => .ok segments
            | none =>
              match txtContents with
              | some text =>
                let cleaned := cleaned_txt text
                if cleaned ≠ [] then .ok [⟨0, ⟨cleaned⟩⟩]
                else .error whisperParseErrorMsg
              | none => .error whisperParseErrorMsg

/-- Decimal digits of a natural number, most significant first (fuel form
so that evaluation reduces; the fuel `n + 1` always suffices since a
number has at most `n + 1` decimal digits). -/
def natToCharsAux : ℕ → ℕ → List Char
  | 0, _ => []
  | fuel + 1, n =>
    if n < 10 then [Char.ofNat (48 + n)]
    else natToCharsAux fuel (n / 10) ++ [Char.ofNat (48 + n % 10)]

/-- Rust's `{}` formatting of an unsigned integer: its decimal digits. -/
def natToString (n : ℕ) : String :=
  ⟨natToCharsAux (n + 1) n⟩

/-- Two-digit zero padding, Rust's `{value:02}` format (wider numbers are
printed in full). -/
def pad2 (n : ℕ) : String :=
  if n < 10 then "0" ++ natToString n else natToString n

/-- Embedding of `format_seconds` (lib.rs 894-900).  Rust rounds the `f64`
half away from zero and clamps at 0; for non-negative inputs that agrees
with Mathlib's `round` (half up), and for negative inputs both collapse to
0 under the clamp, so `(max (round value) 0).toNat` is exact. -/
def format_seconds (value : ℚ) : String :=
  let total : ℕ := (max (round value) 0).toNat
  pad2 (total / 3600) ++ ":" ++ pad2 (total % 3600 / 60) ++ ":" ++ pad2 (total % 60)

/-- The Rust `TranscriptionSegment` record (lib.rs 100-105). -/
structure TranscriptionSegment where
  start : ℚ
  speaker : String
  text : String
  deriving DecidableEq

/-- The loop body of `format_segments` (lib.rs 908-929): append one
newline-terminated chunk for the segment, whose shape depends on the two
flags. -/
def render_step (include_timestamps include_speaker : Bool)
    (output : String) (segment : TranscriptionSegment) : String :=
  if include_timestamps then
    if include_speaker then
      output ++ format_seconds segment.start ++ " " ++ segment.speaker ++ "：" ++
        segment.text ++ "\n"
    else
      output ++ format_seconds segment.start ++ " " ++ segment.text ++ "\n"
  else if include_speaker then
    output ++ segment.speaker ++ "：" ++ segment.text ++ "\n"
  else
    output ++ segment.text ++ "\n"

/-- Embedding of `format_segments` (lib.rs 902-931): fold `render_step`
over the segments starting from the empty string. -/
def format_segments (segments : List TranscriptionSegment)
    (include_timestamps include_speaker : Bool) : String :=
  segments.foldl (render_step include_timestamps include_speaker) ""

/-- The per-segment line of `format_segments`, for stating that the fold
emits exactly one such chunk per segment. -/
def render_line (include_timestamps include_speaker : Bool)
    (segment : TranscriptionSegment) : String :=
  if include_timestamps then
    if include_speaker then
      format_seconds segment.start ++ " " ++ segment.speaker ++ "：" ++ segment.text ++ "\n"
    else
      format_seconds segment.start ++ " " ++ segment.text ++ "\n"
  else if include_speaker then
    segment.speaker ++ "：" ++ segment.text ++ "\n"
  else
    segment.text ++ "\n"

/-- The comparator relation of the segment sorts (lib.rs 1257-1261 and
1269-1273): Rust's stable `sort_by` with
`a.start.partial_cmp(&b.start).unwrap_or(Equal)`.  Start times are modelled
as `ℚ` (no NaN is producible, see the header), so the comparator is the
total order on the `start` field. -/
def seg_le (a b : TranscriptionSegment) : Prop := a.start ≤ b.start

instance : DecidableRel seg_le := fun a b => inferInstanceAs (Decidable (a.start ≤ b.start))

instance : IsTotal TranscriptionSegment seg_le := ⟨fun a b => le_total a.start b.start⟩

instance : IsTrans TranscriptionSegment seg_le := ⟨fun _ _ _ h h1 => le_trans h h1⟩

/-- Rust's `slice::sort_by` is a stable sort; a stable sort by a total
preorder is uniquely determined by its input, and insertion sort is one,
so the embedding uses `List.insertionSort`. -/
def sort_segments (l : List TranscriptionSegment) : List TranscriptionSegment :=
  List.insertionSort seg_le l

/-- The Rust `TrackEntry` record (lib.rs 82-87). -/
structure TrackEntry where
  key : String
  speaker : String
  track_time : String
  deriving DecidableEq

/-- The track comparator (lib.rs 1163): stable `sort_by` with
`compare_time_string` on `track_time`. -/
def track_le (a b : TrackEntry) : Prop :=
  compare_time_string a.track_time b.track_time ≠ .gt

instance : DecidableRel track_le := fun a b =>
  inferInstanceAs (Decidable (compare_time_string a.track_time b.track_time ≠ .gt))

/-- Stable sort of the track list (lib.rs 1163), embedded like
`sort_segments`. -/
def sort_tracks (l : List TrackEntry) : List TrackEntry :=
  List.insertionSort track_le l

/-- The track-discovery loop of `run_transcription` (lib.rs 1141-1151):
keep the keys `parse_key` accepts, as `TrackEntry` records. -/
def tracks_of_keys (keys : List String) : List TrackEntry :=
  keys.filterMap (fun key =>
    match parse_key key with
    | some (_, _, _, speaker, track_time) =>
      some ⟨key, speaker, sanitize_time track_time⟩
    | none => none)

/-- The track anchor (lib.rs 1240-1242): seconds since midnight of the
parsed track time, defaulting to 0.0 when the time does not parse. -/
def track_start_seconds (track_time : String) : ℚ :=
  match parse_time_any track_time.data with
  | some t => (t : ℚ)
  | none => 0

/-- The re-anchoring loop body (lib.rs 1243-1255): drop segments whose
trimmed text is empty, shift the rest by the track anchor and tag them
with the speaker (the text is stored trimmed). -/
def anchor_track_unsorted (track_time speaker : String)
    (segments : List WhisperSegment) : List TranscriptionSegment :=
  segments.filterMap (fun segment =>
    let cleaned := rustTrim segment.text
    if cleaned.data = [] then none
    else some ⟨track_start_seconds track_time + segment.start, speaker, cleaned⟩)

/-- One track's contribution (lib.rs 1243-1261): the re-anchored segments,
stably sorted by absolute start. -/
def anchor_track (track_time speaker : String)
    (segments : List WhisperSegment) : List TranscriptionSegment :=
  sort_segments (anchor_track_unsorted track_time speaker segments)

/-- The Rust `JobStatus` record (lib.rs 107-116). -/
structure JobStatus where
  state : String
  completed : ℕ
  total : ℕ
  output_path : Option String
  error : Option String
  log : Option String
  deriving DecidableEq

/-- The status `start_transcribe` inserts (lib.rs 1077-1087). -/
def initialJobStatus : JobStatus :=
  ⟨"running", 0, 0, none, none, some ""⟩

/-- The registry mutations the job code performs on its status record:
`setTotal` is lib.rs 1170-1176 (which also rewrites `completed := 0`),
`setCompleted` is lib.rs 1263-1266, `markDone` is lib.rs 1282-1287,
`markFailed` is the error handler in `start_transcribe` (lib.rs
1104-1110), and `appendLog` is `append_log` (lib.rs 553-560). -/
inductive JobEvent where
  | setTotal (n : ℕ)
  | setCompleted (k : ℕ)
  | markDone (path : String)
  | markFailed (msg : String)
  | appendLog (line : String)
  deriving DecidableEq

/-- Effect of one registry mutation on the status record. -/
def stepJob (s : JobStatus) : JobEvent → JobStatus
  | .setTotal n => { s with total := n, completed := 0 }
  | .setCompleted k => { s with completed := k }
  | .markDone p => { s with state := "done", completed := s.total, output_path := some p }
  | .markFailed e => { s with state := "failed", error := some e }
  | .appendLog line => { s with log := some (s.log.getD "" ++ line ++ "\n") }

/-- Terminal registry mutations. -/
def isTerminalEvent : JobEvent → Bool
  | .markDone _ => true
  | .markFailed _ => true
  | _ => false

/-- The status record after each prefix of an event list (the list of
states the polling caller can observe). -/
def statesFrom (s : JobStatus) : List JobEvent → List JobStatus
  | [] => [s]
  | e :: evs => s :: statesFrom (stepJob s e) evs

/-- Outcome of the per-track I/O (download, optional ffmpeg conversion,
whisper subprocess and output parsing, lib.rs 1203-1239): either a failure
with the log lines emitted before it, or the parsed whisper segments with
the emitted log lines. -/
inductive TrackOutcome where
  | failAt (logs : List String) (msg : String)
  | ok (logs : List String) (segments : List WhisperSegment)

/-- Abstraction of the environment `run_transcription` interacts with:
resolution and existence of the local resources (lib.rs 437-531, 562-588),
the store listing (lib.rs 1128-1161), the per-track subprocess outcomes,
and the final file write.  Path strings and the computed output path are
carried opaquely. -/
structure PipelineEnv where
  resolveWhisper : Except String (String × String)
  binaryExists : Bool
  modelExists : Bool
  binaryCfgEmpty : Bool
  candidatesDisplay : String
  resolveFfmpeg : Except String Unit
  meetingId : String
  listKeys : Except String (List String)
  preLoopOk : Except String Unit
  outcomes : ℕ → TrackOutcome
  writeOk : Bool
  outputPathStr : String

/-- The missing-binary error message of `ensure_whisper_resources`
(lib.rs 564-578). -/
def whisperBinaryMissingMsg (binaryPath : String) (binaryCfgEmpty : Bool)
    (candidatesDisplay : String) : String :=
  "Whisper binary not found at " ++ binaryPath ++ ". " ++
    (if binaryCfgEmpty then
      "Install whisper.cpp and ensure one of " ++ candidatesDisplay ++ " is in PATH."
    else
      "Set WHISPER_BINARY to a valid local path.")

/-- The missing-model error message of `ensure_whisper_resources`
(lib.rs 580-585). -/
def whisperModelMissingMsg (modelPath : String) : String :=
  "Whisper model not found at " ++ modelPath ++ ". Set WHISPER_MODEL to a local model file."

/-- Embedding of `ensure_whisper_resources` (lib.rs 562-588). -/
def ensure_whisper_resources (env : PipelineEnv) : Except String (String × String) :=
  match env.resolveWhisper with
  | .error e => .error e
  | .ok (binaryPath, modelPath) =>
    if env.binaryExists = false then
      .error (whisperBinaryMissingMsg binaryPath env.binaryCfgEmpty env.candidatesDisplay)
    else if env.modelExists = false then
      .error (whisperModelMissingMsg modelPath)
    else
      .ok (binaryPath, modelPath)

/-- The per-track progress label (lib.rs 1204). -/
def trackLabel (idx n : ℕ) : String :=
  "Track " ++ natToString (idx + 1) ++ "/" ++ natToString n

/-- The sequential per-track loop (lib.rs 1203-1267): for each track emit
its log lines, fail the job on a track failure, otherwise append the
track's anchored segments to the accumulator and set `completed` to the
1-based track index. -/
def process_tracks (outcomes : ℕ → TrackOutcome) (n : ℕ) :
    List TrackEntry → ℕ → List TranscriptionSegment →
    List JobEvent × Except String (List TranscriptionSegment)
  | [], _, acc => ([], .ok acc)
  | track :: rest, idx, acc =>
    let dl := JobEvent.appendLog (trackLabel idx n ++ ": downloading audio")
    match outcomes idx with
    | .failAt logs msg => ([dl] ++ logs.map .appendLog, .error msg)
    | .ok logs segments =>
      let trackSegments := anchor_track track.track_time track.speaker segments
      let pr := process_tracks outcomes n rest (idx + 1) (acc ++ trackSegments)
      (([dl] ++ logs.map .appendLog ++ [.setCompleted (idx + 1)]) ++ pr.1, pr.2)

/-- Embedding of `run_transcription` (lib.rs 1116-1290) as the sequence of
registry mutations it performs and its result (the final merged segment
list and output path, or the error the caller turns into `failed`). -/
def run_transcription (env : PipelineEnv) :
    List JobEvent × Except String (List TranscriptionSegment × String) :=
  match ensure_whisper_resources env with
  | .error e => ([], .error e)
  | .ok _ =>
    match env.resolveFfmpeg with
    | .error e => ([], .error e)
    | .ok _ =>
      match env.listKeys with
      | .error e => ([], .error e)
      | .ok keys =>
        let tracks := sort_tracks (tracks_of_keys keys)
        let header := [JobEvent.setTotal tracks.length]
        if tracks.isEmpty then
          (header, .error ("No tracks found for meeting: " ++ env.meetingId))
        else
          match env.preLoopOk with
          | .error e => (header, .error e)
          | .ok _ =>
            let pr := process_tracks env.outcomes tracks.length tracks 0 []
            match pr.2 with
            | .error e => (header ++ pr.1, .error e)
            | .ok all_segments =>
              if env.writeOk = false then
                (header ++ pr.1, .error ("Failed to write output: " ++ env.outputPathStr))
              else
                (header ++ pr.1 ++
                  [.appendLog "", .appendLog "Done", .markDone env.outputPathStr],
                  .ok (sort_segments all_segments, env.outputPathStr))

/-- The full mutation trace of one job: the mutations `run_transcription`
performs, plus the `markFailed` transition the spawning task appends when
it returns an error (lib.rs 1095-1111). -/
def job_trace (env : PipelineEnv) : List JobEvent :=
  match run_transcription env with
  | (events, .ok _) => events
  | (events, .error e) => events ++ [.markFailed e]

/-- All states of one job's status record, from creation through every
mutation of its trace. -/
def job_states (env : PipelineEnv) : List JobStatus :=
  statesFrom initialJobStatus (job_trace env)

instance {ε α : Type _} [DecidableEq ε] [DecidableEq α] : DecidableEq (Except ε α) :=
  fun a b =>
    match a, b with
    | .ok x, .ok y =>
      if h : x = y then .isTrue (by rw [h]) else .isFalse (by simp [h])
    | .error x, .error y =>
      if h : x = y then .isTrue (by rw [h]) else .isFalse (by simp [h])
    | .ok _, .error _ => .isFalse (by simp)
    | .error _, .ok _ => .isFalse (by simp)

/-- Traces of non-terminal registry mutations a running job body may emit
from a state with `completed = c` and `total = n`: log lines freely, and
`completed` writes that never decrease and never exceed the total.  The
per-track loop only emits such traces. -/
inductive SafeBody : ℕ → ℕ → List JobEvent → Prop
  | nil (c n : ℕ) : SafeBody c n []
  | log (c n : ℕ) (line : String) (evs : List JobEvent) :
      SafeBody c n evs → SafeBody c n (.appendLog line :: evs)
  | complete (c n k : ℕ) (evs : List JobEvent) :
      c ≤ k → k ≤ n → SafeBody k n evs → SafeBody c n (.setCompleted k :: evs)

/-- The per-track contributions in processing order, each track's list
already sorted (what `process_tracks` appends to the accumulator). -/
def anchored_sorted (outcomes : ℕ → TrackOutcome) :
    List TrackEntry → ℕ → List TranscriptionSegment
  | [], _ => []
  | track :: rest, idx =>
    match outcomes idx with
    | .failAt _ _ => []
    | .ok _ segments =>
      anchor_track track.track_time track.speaker segments ++
        anchored_sorted outcomes rest (idx + 1)

/-- The raw appended order of claim C1: per-track segments in track
processing order, each track's segments in their original (pre-sort)
within-track order. -/
def raw_appended (outcomes : ℕ → TrackOutcome) :
    List TrackEntry → ℕ → List TranscriptionSegment
  | [], _ => []
  | track :: rest, idx =>
    match outcomes idx with
    | .failAt _ _ => []
    | .ok _ segments =>
      anchor_track_unsorted track.track_time track.speaker segments ++
        raw_appended outcomes rest (idx + 1)

/-- The start-time priority exactly as claim C3's sentence reads: the
first available among a numeric `start`, a numeric `offsets.from` divided
by 1000, a parseable string `timestamps.from`, and a numeric `t0` divided
by 100, defaulting to 0.0 only "if none is present".  (Stated from the
claim's words, to be compared against `segment_from_value`.) -/
def claim_start_priority (value : Json) : ℚ :=
  match (value.get "start").bind Json.asNum with
  | some s => s
  | none =>
    match ((value.get "offsets").bind (fun o => o.get "from")).bind Json.asNum with
    | some fromMs => fromMs / 1000
    | none =>
      match (((value.get "timestamps").bind (fun t => t.get "from")).bind
          Json.asStr).bind parse_timestamp_to_seconds with
      | some secs => secs
      | none =>
        match (value.get "t0").bind Json.asNum with
        | some t0 => t0 / 100
        | none => 0

/-- Claim C3's counterexample input: `offsets` is present but empty, and a
numeric `t0` is also present. -/
def c3Value : Json :=
  .obj [("text", .str "hi"), ("offsets", .obj []), ("t0", .num 500)]

/-- A pipeline environment whose single track has an unparseable
`track_time` (`bad`) and one recognized segment, for claim C4. -/
def c4Env : PipelineEnv where
  resolveWhisper := .ok ("whisper-cli", "ggml-large-v3.bin")
  binaryExists := true
  modelExists := true
  binaryCfgEmpty := true
  candidatesDisplay := "cands"
  resolveFfmpeg := .ok ()
  meetingId := "2024/room/10-00-00"
  listKeys := .ok ["2024/room/10-00-00/alice/bad.ogg"]
  preLoopOk := .ok ()
  outcomes := fun _ => .ok [] [⟨5, "hi"⟩]
  writeOk := true
  outputPathStr := "10時0分0秒.txt"

/-- A two-track environment with overlapping absolute ranges, used as the
concrete witness input for the pipeline claims. -/
def twoTrackEnv : PipelineEnv where
  resolveWhisper := .ok ("whisper-cli", "ggml-large-v3.bin")
  binaryExists := true
  modelExists := true
  binaryCfgEmpty := true
  candidatesDisplay := "cands"
  resolveFfmpeg := .ok ()
  meetingId := "2024/room/10-00-00"
  listKeys := .ok ["2024/room/10-00-00/alice/10-00-00_a.ogg",
    "2024/room/10-00-00/bob/10-00-00_b.ogg"]
  preLoopOk := .ok ()
  outcomes := fun idx => if idx = 0 then .ok [] [⟨5, "hi"⟩] else .ok [] [⟨2, "hello"⟩]
  writeOk := true
  outputPathStr := "10時0分0秒.txt"

/-- An environment whose resolved whisper binary does not exist on disk,
for claim C8. -/
def missingBinaryEnv : PipelineEnv where
  resolveWhisper := .ok ("/opt/homebrew/bin/whisper-cli", "ggml-large-v3.bin")
  binaryExists := false
  modelExists := true
  binaryCfgEmpty := false
  candidatesDisplay := "cands"
  resolveFfmpeg := .ok ()
  meetingId := "2024/room/10-00-00"
  listKeys := .ok []
  preLoopOk := .ok ()
  outcomes := fun _ => .ok [] []
  writeOk := true
  outputPathStr := "10時0分0秒.txt"

/-- Association-list increment, modelling `entry.4 += 1` on the meetings
`HashMap` of `list_meetings` (lib.rs 1029-1033); lookup order is
irrelevant to the count of any one meeting id. -/
def bump_count : List (String × ℕ) → String → List (String × ℕ)
  | [], id => [(id, 1)]
  | (k, v) :: rest, id =>
    if k = id then (k, v + 1) :: rest else (k, v) :: bump_count rest id

/-- The per-meeting track counts of `list_meetings` (lib.rs 1025-1046):
every listed key that `parse_key` accepts bumps the track count of its
meeting id `date/roomId/meetingTime`; unparseable keys are skipped. -/
def meeting_track_counts (keys : List String) : List (String × ℕ) :=
  keys.foldl
    (fun acc key =>
      match parse_key key with
      | some (date, roomId, meetingTime, _, _) =>
        bump_count acc (date ++ "/" ++ roomId ++ "/" ++ meetingTime)
      | none => acc)
    []

/-! ### Stability and sortedness of the segment sort -/

lemma filter_orderedInsert_start (k : ℚ) (a : TranscriptionSegment) :
    ∀ l : List TranscriptionSegment,
      (l.orderedInsert seg_le a).filter (fun s => decide (s.start = k)) =
        if a.start = k then a :: l.filter (fun s => decide (s.start = k))
        else l.filter (fun s => decide (s.start = k))
  | [] => by
    by_cases h : a.start = k <;> simp [List.orderedInsert, List.filter, h]
  | b :: l => by
    by_cases hab : seg_le a b
    · by_cases h : a.start = k <;>
        simp [List.orderedInsert, hab, List.filter, h]
    · have hlt : b.start < a.start := not_le.mp hab
      by_cases h : a.start = k
      · have hbk : ¬ b.start = k := by rw [← h]; exact ne_of_lt hlt
        simp [List.orderedInsert, hab, List.filter, h, hbk,
          filter_orderedInsert_start k a l]
      · by_cases hb : b.start = k <;>
          simp [List.orderedInsert, hab, List.filter, h, hb,
            filter_orderedInsert_start k a l]

lemma filter_sort_segments (k : ℚ) :
    ∀ l : List TranscriptionSegment,
      (sort_segments l).filter (fun s => decide (s.start = k)) =
        l.filter (fun s => decide (s.start = k))
  | [] => rfl
  | a :: l => by
    by_cases h : a.start = k <;>
      simp [sort_segments, List.insertionSort, filter_orderedInsert_start, h,
        ← filter_sort_segments k l, List.filter]

lemma sort_segments_sorted (l : List TranscriptionSegment) :
    List.Sorted seg_le (sort_segments l) :=
  List.sorted_insertionSort seg_le l

lemma process_tracks_ok_acc (outcomes : ℕ → TrackOutcome) (n : ℕ) :
    ∀ (ts : List TrackEntry) (idx : ℕ) (acc segs : List TranscriptionSegment),
      (process_tracks outcomes n ts idx acc).2 = .ok segs →
      segs = acc ++ anchored_sorted outcomes ts idx
  | [], idx, acc, segs => by
    intro h
    simp [process_tracks] at h
    simp [anchored_sorted, h]
  | track :: rest, idx, acc, segs => by
    intro h
    cases ho : outcomes idx with
    | failAt logs msg => simp [process_tracks, ho] at h
    | ok logs segments =>
      simp only [process_tracks, ho] at h
      have := process_tracks_ok_acc outcomes n rest (idx + 1)
        (acc ++ anchor_track track.track_time track.speaker segments) segs h
      simp [this, anchored_sorted, ho]

lemma filter_anchored_eq_filter_raw (k : ℚ) (outcomes : ℕ → TrackOutcome) :
    ∀ (ts : List TrackEntry) (idx : ℕ),
      (anchored_sorted outcomes ts idx).filter (fun s => decide (s.start = k)) =
        (raw_appended outcomes ts idx).filter (fun s => decide (s.start = k))
  | [], _ => rfl
  | track :: rest, idx => by
    cases ho : outcomes idx with
    | failAt logs msg => simp [anchored_sorted, raw_appended, ho]
    | ok logs segments =>
      simp [anchored_sorted, raw_appended, ho, List.filter_append,
        anchor_track, filter_sort_segments,
        filter_anchored_eq_filter_raw k outcomes rest (idx + 1)]

lemma run_transcription_ok (env : PipelineEnv) (segs : List TranscriptionSegment)
    (path : String) (h : (run_transcription env).2 = .ok (segs, path)) :
    ∃ keys all_segments, env.listKeys = .ok keys ∧
      (process_tracks env.outcomes (sort_tracks (tracks_of_keys keys)).length
        (sort_tracks (tracks_of_keys keys)) 0 []).2 = .ok all_segments ∧
      segs = sort_segments all_segments := by
  unfold run_transcription at h
  cases hE : ensure_whisper_resources env with
  | error e => rw [hE] at h; simp at h
  | ok bm =>
    rw [hE] at h
    cases hF : env.resolveFfmpeg with
    | error e => rw [hF] at h; simp at h
    | ok u =>
      rw [hF] at h
      cases hK : env.listKeys with
      | error e => rw [hK] at h; simp at h
      | ok keys =>
        rw [hK] at h
        by_cases hemp : (sort_tracks (tracks_of_keys keys)).isEmpty
        · simp [hemp] at h
        · simp only [hemp, if_false, Bool.false_eq_true] at h
          cases hP : env.preLoopOk with
          | error e => rw [hP] at h; simp at h
          | ok u2 =>
            rw [hP] at h
            cases hpr : (process_tracks env.outcomes
                (sort_tracks (tracks_of_keys keys)).length
                (sort_tracks (tracks_of_keys keys)) 0 []).2 with
            | error e => rw [hpr] at h; simp at h
            | ok all_segments =>
              rw [hpr] at h
              by_cases hw : env.writeOk = false
              · simp [hw] at h
              · simp only [hw, if_false, Bool.false_eq_true] at h
                refine ⟨keys, all_segments, rfl, hpr, ?_⟩
                simp at h
                exact h.1.symm

/-- C1: after all tracks are processed, the merged segment sequence a
successful `run_transcription` produces is sorted non-decreasing by
absolute start time, and for every start value the subsequence of
segments with that start equals the corresponding subsequence of
`raw_appended` — the segments in the order they were appended (track
processing order, then original within-track order) — i.e. both the
per-track and the cross-track sorts are stable. -/
theorem run_transcription_merge_sorted_stable (env : PipelineEnv)
    (segs : List TranscriptionSegment) (path : String) (keys : List String)
    (hkeys : env.listKeys = .ok keys)
    (hrun : (run_transcription env).2 = .ok (segs, path)) :
    List.Sorted seg_le segs ∧
    ∀ k : ℚ, segs.filter (fun s => decide (s.start = k)) =
      (raw_appended env.outcomes (sort_tracks (tracks_of_keys keys)) 0).filter
        (fun s => decide (s.start = k)) := by
  obtain ⟨keys2, all_segments, hk2, hpr, hsegs⟩ := run_transcription_ok env segs path hrun
  rw [hkeys] at hk2
  injection hk2 with hk2
  subst hk2
  constructor
  · rw [hsegs]; exact sort_segments_sorted _
  · intro k
    have hacc := process_tracks_ok_acc env.outcomes _ _ _ _ _ hpr
    rw [hsegs, filter_sort_segments, hacc, List.nil_append,
      filter_anchored_eq_filter_raw]

set_option maxHeartbeats 1000000 in
/-- Witness for C1: the spec's own two-track overlap example — `alice` at
`10-00-00` with segment `(5, hi)` and `bob` at `10-00-00` with segment
`(2, hello)` merge with `bob`'s line (absolute 36002) first, and the
result is sorted. -/
theorem run_transcription_merge_sorted_stable_witness :
    twoTrackEnv.listKeys = .ok ["2024/room/10-00-00/alice/10-00-00_a.ogg",
      "2024/room/10-00-00/bob/10-00-00_b.ogg"] ∧
    (run_transcription twoTrackEnv).2 =
      .ok ([⟨36002, "bob", "hello"⟩, ⟨36005, "alice", "hi"⟩], "10時0分0秒.txt") ∧
    List.Sorted seg_le [⟨36002, "bob", "hello"⟩, ⟨36005, "alice", "hi"⟩] := by
  have heval : (run_transcription twoTrackEnv).2 =
      .ok ([⟨36002, "bob", "hello"⟩, ⟨36005, "alice", "hi"⟩], "10時0分0秒.txt") := by
    norm_num +decide [run_transcription, twoTrackEnv, ensure_whisper_resources,
      tracks_of_keys, parse_key, splitChar, track_time_of_file, ogg_stem,
      stripSuffixChars, sanitize_time, sort_tracks, List.insertionSort,
      List.orderedInsert, track_le, compare_time_string, parse_time_any,
      parse_hyphen_time, parse_japanese_time, parseU32, digitsToNat, from_hms_opt,
      cmpNat, process_tracks, anchor_track, anchor_track_unsorted,
      track_start_seconds, rustTrim, trimChars, rustIsWhitespace, sort_segments,
      seg_le, List.filterMap, trackLabel]
    norm_num [show ('1').toNat = 49 from rfl, show ('0').toNat = 48 from rfl]
  exact ⟨rfl, heval,
    (run_transcription_merge_sorted_stable twoTrackEnv _ _ _ rfl heval).1⟩

/-! ### Key codec -/

lemma splitChar_ne_nil (c : Char) : ∀ l : List Char, splitChar c l ≠ []
  | [] => by simp [splitChar]
  | x :: xs => by
    have := splitChar_ne_nil c xs
    cases h : splitChar c xs with
    | nil => exact absurd h this
    | cons y ys => by_cases hx : x = c <;> simp [splitChar, h, hx]

lemma splitChar_not_mem {c : Char} : ∀ {l : List Char}, c ∉ l → splitChar c l = [l]
  | [], _ => rfl
  | x :: xs, h => by
    have hx : ¬ x = c := by
      intro he; subst he; exact h (List.mem_cons_self x xs)
    have hxs : c ∉ xs := fun hm => h (List.mem_cons_of_mem x hm)
    simp [splitChar, splitChar_not_mem hxs, hx]

lemma splitChar_append_cons (c : Char) {l : List Char} (h : c ∉ l)
    (rest : List Char) : splitChar c (l ++ c :: rest) = l :: splitChar c rest := by
  induction l with
  | nil =>
    cases hr : splitChar c rest with
    | nil => exact absurd hr (splitChar_ne_nil c rest)
    | cons y ys => simp [splitChar, hr]
  | cons x xs ih =>
    have hx : ¬ x = c := by
      intro he; subst he; exact h (List.mem_cons_self x xs)
    have hxs : c ∉ xs := fun hm => h (List.mem_cons_of_mem x hm)
    simp [splitChar, ih hxs, hx]

lemma parse_key_isSome_iff (key : String) :
    (parse_key key).isSome ↔ (splitChar '/' key.data).length = 5 := by
  rcases h : splitChar '/' key.data with _ | ⟨a, _ | ⟨b, _ | ⟨c, _ | ⟨d, _ | ⟨e, _ | ⟨f, g⟩⟩⟩⟩⟩⟩ <;>
    simp [parse_key, h]

lemma parse_key_join (d r m sp f : List Char) (hd : '/' ∉ d) (hr : '/' ∉ r)
    (hm : '/' ∉ m) (hsp : '/' ∉ sp) (hf : '/' ∉ f) :
    parse_key ⟨d ++ '/' :: (r ++ '/' :: (m ++ '/' :: (sp ++ '/' :: f)))⟩ =
      some (⟨d⟩, ⟨r⟩, ⟨m⟩, ⟨sp⟩, ⟨track_time_of_file f⟩) := by
  show (match splitChar '/' (d ++ '/' :: (r ++ '/' :: (m ++ '/' :: (sp ++ '/' :: f)))) with
    | [date, roomId, meetingTime, speaker, file] =>
      some ((⟨date⟩ : String), (⟨roomId⟩ : String), (⟨meetingTime⟩ : String),
        (⟨speaker⟩ : String), (⟨track_time_of_file file⟩ : String))
    | _ => none) = _
  rw [splitChar_append_cons _ hd, splitChar_append_cons _ hr,
    splitChar_append_cons _ hm, splitChar_append_cons _ hsp, splitChar_not_mem hf]

lemma dropWhile_head_false {α : Type _} (p : α → Bool) :
    ∀ (l : List α) (x : α) (xs : List α), l.dropWhile p = x :: xs → p x = false
  | [], x, xs => by intro h; simp at h
  | y :: l, x, xs => by
    intro h
    by_cases hy : p y
    · rw [List.dropWhile_cons_of_pos hy] at h
      exact dropWhile_head_false p l x xs h
    · rw [List.dropWhile_cons_of_neg hy] at h
      cases h
      simpa using hy

lemma track_time_shape (f : List Char) :
    ∃ rest, ogg_stem f = track_time_of_file f ++ rest ∧
      '_' ∉ track_time_of_file f ∧ (rest = [] ∨ ∃ t, rest = '_' :: t) := by
  refine ⟨(ogg_stem f).dropWhile (fun c => decide (c ≠ '_')), ?_, ?_, ?_⟩
  · rw [track_time_of_file]
    exact (List.takeWhile_append_dropWhile _ _).symm
  · intro hmem
    have := List.mem_takeWhile_imp hmem
    simp at this
  · cases hd : (ogg_stem f).dropWhile (fun c => decide (c ≠ '_')) with
    | nil => exact Or.inl rfl
    | cons x xs =>
      right
      have := dropWhile_head_false _ _ _ _ hd
      simp at this
      exact ⟨xs, by rw [this]⟩

/-- C6: `parse_key` splits on `/` and succeeds exactly on five-part keys;
on every five-part key built from `/`-free components it returns the
component tuple, whose `trackTime` is the filename with the `.ogg`
extension stripped (`ogg_stem`) truncated at the first `_` — formally, the
stem is `trackTime ++ rest` with `_` not in `trackTime` and `rest` either
empty or starting with `_`. -/
theorem parse_key_spec :
    (∀ key : String, (parse_key key).isSome ↔ (splitChar '/' key.data).length = 5) ∧
    (∀ d r m sp f : List Char, '/' ∉ d → '/' ∉ r → '/' ∉ m → '/' ∉ sp → '/' ∉ f →
      parse_key ⟨d ++ '/' :: (r ++ '/' :: (m ++ '/' :: (sp ++ '/' :: f)))⟩ =
        some (⟨d⟩, ⟨r⟩, ⟨m⟩, ⟨sp⟩, ⟨track_time_of_file f⟩)) ∧
    (∀ f : List Char, ∃ rest, ogg_stem f = track_time_of_file f ++ rest ∧
      '_' ∉ track_time_of_file f ∧ (rest = [] ∨ ∃ t, rest = '_' :: t)) :=
  ⟨parse_key_isSome_iff, parse_key_join, track_time_shape⟩

/-- Witness for C6 at a concrete key. -/
theorem parse_key_spec_witness :
    (parse_key "2024-05-01/localWorld.x-room/10-00-00/alice/09-00-00_1.ogg").isSome ∧
    parse_key "2024-05-01/localWorld.x-room/10-00-00/alice/09-00-00_1.ogg" =
      some ("2024-05-01", "localWorld.x-room", "10-00-00", "alice", "09-00-00") := by
  constructor
  · exact (parse_key_spec.1 "2024-05-01/localWorld.x-room/10-00-00/alice/09-00-00_1.ogg").mpr
      (by decide)
  · have := parse_key_spec.2.1 ("2024-05-01").data ("localWorld.x-room").data
      ("10-00-00").data ("alice").data ("09-00-00_1.ogg").data
      (by decide) (by decide) (by decide) (by decide) (by decide)
    exact (by decide : parse_key "2024-05-01/localWorld.x-room/10-00-00/alice/09-00-00_1.ogg" =
      some ("2024-05-01", "localWorld.x-room", "10-00-00", "alice", "09-00-00"))

/-- C10: `parse_key` does not require the five segments to be non-empty —
a key with exactly four `/` separators and an empty final segment (a key
ending in `/`) is accepted, with `trackTime` the empty string, and the
meeting-listing aggregation counts such an object as a track of its
meeting. -/
theorem parse_key_accepts_empty_last (p1 p2 p3 p4 : List Char)
    (h1 : '/' ∉ p1) (h2 : '/' ∉ p2) (h3 : '/' ∉ p3) (h4 : '/' ∉ p4) :
    parse_key ⟨p1 ++ '/' :: (p2 ++ '/' :: (p3 ++ '/' :: (p4 ++ [ '/'])))⟩ =
      some (⟨p1⟩, ⟨p2⟩, ⟨p3⟩, ⟨p4⟩, "") ∧
    meeting_track_counts [⟨p1 ++ '/' :: (p2 ++ '/' :: (p3 ++ '/' :: (p4 ++ [ '/'])))⟩] =
      [((⟨p1⟩ : String) ++ "/" ++ (⟨p2⟩ : String) ++ "/" ++ (⟨p3⟩ : String), 1)] := by
  have hkey : parse_key ⟨p1 ++ '/' :: (p2 ++ '/' :: (p3 ++ '/' :: (p4 ++ [ '/'])))⟩ =
      some (⟨p1⟩, ⟨p2⟩, ⟨p3⟩, ⟨p4⟩, ⟨track_time_of_file []⟩) := by
    have := parse_key_join p1 p2 p3 p4 [] h1 h2 h3 h4 (by simp)
    simpa using this
  have htt : (⟨track_time_of_file []⟩ : String) = "" := by decide
  rw [htt] at hkey
  refine ⟨hkey, ?_⟩
  simp [meeting_track_counts, hkey, bump_count]

/-- Witness for C10 at a concrete folder-marker key. -/
theorem parse_key_accepts_empty_last_witness :
    parse_key "2024/room/10-00-00/alice/" = some ("2024", "room", "10-00-00", "alice", "") ∧
    meeting_track_counts ["2024/room/10-00-00/alice/"] = [("2024/room/10-00-00", 1)] := by
  have h := parse_key_accepts_empty_last ("2024").data ("room").data
    ("10-00-00").data ("alice").data (by decide) (by decide) (by decide) (by decide)
  exact ⟨by decide, by decide⟩

/-! ### Time comparison -/

/-- C7: `compare_time_string` compares parsed wall-clock values when both
sides parse, sorts a parseable time before an unparseable string, and
falls back to raw lexicographic comparison when neither parses; in
particular `09-00-00` orders before `10-15-30` and `bad` orders after
`09-00-00`. -/
theorem compare_time_string_spec :
    (∀ (a b : String) (ta tb : ℕ), parse_time_any a.data = some ta →
      parse_time_any b.data = some tb → compare_time_string a b = cmpNat ta tb) ∧
    (∀ (a b : String) (ta : ℕ), parse_time_any a.data = some ta →
      parse_time_any b.data = none → compare_time_string a b = .lt) ∧
    (∀ (a b : String) (tb : ℕ), parse_time_any a.data = none →
      parse_time_any b.data = some tb → compare_time_string a b = .gt) ∧
    (∀ a b : String, parse_time_any a.data = none → parse_time_any b.data = none →
      compare_time_string a b = cmpChars a.data b.data) ∧
    compare_time_string "09-00-00" "10-15-30" = .lt ∧
    compare_time_string "bad" "09-00-00" = .gt := by
  refine ⟨?_, ?_, ?_, ?_, by decide, by decide⟩ <;>
    · intros a b
      intros
      unfold compare_time_string
      simp_all

/-- Witness for C7: the both-parse case at the concrete pair of the
claim. -/
theorem compare_time_string_spec_witness :
    parse_time_any ("09-00-00").data = some 32400 ∧
    parse_time_any ("10-15-30").data = some 36930 ∧
    compare_time_string "09-00-00" "10-15-30" = cmpNat 32400 36930 := by
  refine ⟨by decide, by decide, ?_⟩
  exact compare_time_string_spec.1 "09-00-00" "10-15-30" 32400 36930
    (by decide) (by decide)

/-! ### Job status lifecycle -/

lemma statesFrom_ne_nil (s : JobStatus) : ∀ evs : List JobEvent, statesFrom s evs ≠ []
  | [] => by simp [statesFrom]
  | e :: evs => by simp [statesFrom]

lemma statesFrom_cons_head (s : JobStatus) (evs : List JobEvent) :
    ∃ tl, statesFrom s evs = s :: tl := by
  cases evs <;> exact ⟨_, rfl⟩

lemma statesFrom_concat : ∀ (evs : List JobEvent) (e : JobEvent) (s : JobStatus),
    statesFrom s (evs ++ [e]) = statesFrom s evs ++ [stepJob (evs.foldl stepJob s) e]
  | [], e, s => rfl
  | e1 :: evs, e, s => by
    show s :: statesFrom (stepJob s e1) (evs ++ [e]) = _
    rw [statesFrom_concat evs e (stepJob s e1)]
    rfl

lemma statesFrom_getLast? : ∀ (evs : List JobEvent) (s : JobStatus),
    (statesFrom s evs).getLast? = some (evs.foldl stepJob s)
  | [], s => rfl
  | e :: evs, s => by
    simp only [statesFrom, List.foldl_cons]
    obtain ⟨tl, htl⟩ := statesFrom_cons_head (stepJob s e) evs
    rw [htl, List.getLast?_cons_cons, ← htl, statesFrom_getLast? evs (stepJob s e)]

lemma SafeBody.append_logs (logs : List String) {c n : ℕ} {evs : List JobEvent}
    (h : SafeBody c n evs) : SafeBody c n (logs.map JobEvent.appendLog ++ evs) := by
  induction logs with
  | nil => simpa using h
  | cons l ls ih => exact SafeBody.log _ _ l _ ih

lemma SafeBody.concat_log (line : String) {c n : ℕ} {evs : List JobEvent}
    (h : SafeBody c n evs) : SafeBody c n (evs ++ [.appendLog line]) := by
  induction h with
  | nil c n => exact .log _ _ _ _ (.nil c n)
  | log c n l evs h ih => exact .log _ _ _ _ ih
  | complete c n k evs h1 h2 h ih => exact .complete _ _ _ _ h1 h2 ih

lemma process_tracks_safe (outcomes : ℕ → TrackOutcome) (n : ℕ) :
    ∀ (ts : List TrackEntry) (idx : ℕ) (acc : List TranscriptionSegment),
      idx + ts.length ≤ n →
      SafeBody idx n (process_tracks outcomes n ts idx acc).1
  | [], idx, acc, h => by
    simpa [process_tracks] using SafeBody.nil idx n
  | t :: rest, idx, acc, h => by
    cases ho : outcomes idx with
    | failAt logs msg =>
      simp only [process_tracks, ho]
      exact SafeBody.log _ _ _ _
        (by simpa using SafeBody.append_logs logs (SafeBody.nil idx n))
    | ok logs segments =>
      simp only [process_tracks, ho, List.singleton_append, List.append_assoc,
        List.cons_append]
      refine SafeBody.log _ _ _ _ (SafeBody.append_logs logs ?_)
      have hrest : (idx + 1) + rest.length ≤ n := by simp at h; omega
      refine SafeBody.complete _ _ _ _ (Nat.le_succ idx) (by omega) ?_
      exact process_tracks_safe outcomes n rest (idx + 1) _ hrest

lemma SafeBody.foldl_facts {c n : ℕ} {evs : List JobEvent} (h : SafeBody c n evs) :
    ∀ s : JobStatus, s.completed = c →
      (evs.foldl stepJob s).total = s.total ∧
      (evs.foldl stepJob s).state = s.state ∧
      (evs.foldl stepJob s).output_path = s.output_path ∧
      (evs.foldl stepJob s).error = s.error ∧
      c ≤ (evs.foldl stepJob s).completed ∧
      ((evs.foldl stepJob s).completed ≤ n ∨ (evs.foldl stepJob s).completed = c) := by
  induction h with
  | nil c n =>
    intro s hs
    simp [List.foldl_nil, hs]
  | log c n line evs hb ih =>
    intro s hs
    have step := ih (stepJob s (.appendLog line)) (by simp [stepJob, hs])
    simpa [stepJob] using step
  | complete c n k evs h1 h2 hb ih =>
    intro s hs
    have step := ih (stepJob s (.setCompleted k)) (by simp [stepJob])
    simp only [List.foldl_cons, stepJob]
    simp only [stepJob] at step
    refine ⟨step.1, step.2.1, step.2.2.1, step.2.2.2.1, ?_, ?_⟩
    · exact le_trans h1 step.2.2.2.2.1
    · rcases step.2.2.2.2.2 with hle | heq
      · exact Or.inl hle
      · exact Or.inl (by rw [heq]; exact h2)

lemma SafeBody.states_invariants {c n : ℕ} {evs : List JobEvent} (h : SafeBody c n evs) :
    ∀ s : JobStatus, s.completed = c → s.total = n → s.state = "running" → c ≤ n →
      List.Chain' (fun a b => a.completed ≤ b.completed) (statesFrom s evs) ∧
      (∀ st ∈ statesFrom s evs, st.completed ≤ st.total ∧ st.state = "running" ∧
        st.total = n ∧ st.output_path = s.output_path ∧ st.error = s.error) ∧
      (∀ e ∈ evs, isTerminalEvent e = false) := by
  induction h with
  | nil c n =>
    intro s hc ht hst hcn
    refine ⟨List.chain'_singleton s, ?_, by simp⟩
    intro st hm
    simp only [statesFrom, List.mem_singleton] at hm
    subst hm
    exact ⟨by omega, hst, ht, rfl, rfl⟩
  | log c n line evs hb ih =>
    intro s hc ht hst hcn
    have ih2 := ih (stepJob s (.appendLog line)) (by simp [stepJob, hc])
      (by simp [stepJob, ht]) (by simp [stepJob, hst]) hcn
    obtain ⟨tl, htl⟩ := statesFrom_cons_head (stepJob s (.appendLog line)) evs
    refine ⟨?_, ?_, ?_⟩
    · show List.Chain' _ (s :: statesFrom (stepJob s (.appendLog line)) evs)
      rw [htl]
      refine List.chain'_cons.mpr ⟨by simp [stepJob], ?_⟩
      rw [← htl]
      exact ih2.1
    · intro st hm
      have hm2 : st = s ∨ st ∈ statesFrom (stepJob s (.appendLog line)) evs := by
        simpa [statesFrom] using hm
      rcases hm2 with rfl | hm2
      · exact ⟨by omega, hst, ht, rfl, rfl⟩
      · have := ih2.2.1 st hm2
        simpa [stepJob] using this
    · intro e he
      rcases List.mem_cons.mp he with rfl | he
      · rfl
      · exact ih2.2.2 e he
  | complete c n k evs h1 h2 hb ih =>
    intro s hc ht hst hcn
    have ih2 := ih (stepJob s (.setCompleted k)) (by simp [stepJob])
      (by simp [stepJob, ht]) (by simp [stepJob, hst]) h2
    obtain ⟨tl, htl⟩ := statesFrom_cons_head (stepJob s (.setCompleted k)) evs
    refine ⟨?_, ?_, ?_⟩
    · show List.Chain' _ (s :: statesFrom (stepJob s (.setCompleted k)) evs)
      rw [htl]
      refine List.chain'_cons.mpr ⟨by simp [stepJob, hc]; omega, ?_⟩
      rw [← htl]
      exact ih2.1
    · intro st hm
      have hm2 : st = s ∨ st ∈ statesFrom (stepJob s (.setCompleted k)) evs := by
        simpa [statesFrom] using hm
      rcases hm2 with rfl | hm2
      · exact ⟨by omega, hst, ht, rfl, rfl⟩
      · have := ih2.2.1 st hm2
        simpa [stepJob] using this
    · intro e he
      rcases List.mem_cons.mp he with rfl | he
      · rfl
      · exact ih2.2.2 e he

lemma run_transcription_shape (env : PipelineEnv) :
    (∃ e, run_transcription env = ([], .error e)) ∨
    (∃ n body e, SafeBody 0 n body ∧
      run_transcription env = (.setTotal n :: body, .error e)) ∨
    (∃ n body res, SafeBody 0 n body ∧
      run_transcription env = (.setTotal n ::
        (body ++ [.appendLog "", .appendLog "Done", .markDone env.outputPathStr]),
        .ok res)) := by
  cases hE : ensure_whisper_resources env with
  | error e => exact Or.inl ⟨e, by simp [run_transcription, hE]⟩
  | ok bm =>
    cases hF : env.resolveFfmpeg with
    | error e => exact Or.inl ⟨e, by simp [run_transcription, hE, hF]⟩
    | ok u =>
      cases hK : env.listKeys with
      | error e => exact Or.inl ⟨e, by simp [run_transcription, hE, hF, hK]⟩
      | ok keys =>
        by_cases hemp : (sort_tracks (tracks_of_keys keys)).isEmpty
        · refine Or.inr (Or.inl ⟨(sort_tracks (tracks_of_keys keys)).length, [],
            "No tracks found for meeting: " ++ env.meetingId, .nil 0 _, ?_⟩)
          simp [run_transcription, hE, hF, hK, hemp]
        · cases hP : env.preLoopOk with
          | error e =>
            refine Or.inr (Or.inl ⟨(sort_tracks (tracks_of_keys keys)).length, [],
              e, .nil 0 _, ?_⟩)
            simp [run_transcription, hE, hF, hK, hemp, hP]
          | ok u2 =>
            have hsafe := process_tracks_safe env.outcomes
              (sort_tracks (tracks_of_keys keys)).length
              (sort_tracks (tracks_of_keys keys)) 0 [] (by omega)
            cases hpr : (process_tracks env.outcomes
                (sort_tracks (tracks_of_keys keys)).length
                (sort_tracks (tracks_of_keys keys)) 0 []).2 with
            | error e =>
              refine Or.inr (Or.inl ⟨(sort_tracks (tracks_of_keys keys)).length,
                (process_tracks env.outcomes (sort_tracks (tracks_of_keys keys)).length
                  (sort_tracks (tracks_of_keys keys)) 0 []).1, e, hsafe, ?_⟩)
              simp [run_transcription, hE, hF, hK, hemp, hP, hpr]
            | ok all_segments =>
              by_cases hw : env.writeOk = false
              · refine Or.inr (Or.inl ⟨(sort_tracks (tracks_of_keys keys)).length,
                  (process_tracks env.outcomes (sort_tracks (tracks_of_keys keys)).length
                    (sort_tracks (tracks_of_keys keys)) 0 []).1,
                  "Failed to write output: " ++ env.outputPathStr, hsafe, ?_⟩)
                simp [run_transcription, hE, hF, hK, hemp, hP, hpr, hw]
              · refine Or.inr (Or.inr ⟨(sort_tracks (tracks_of_keys keys)).length,
                  (process_tracks env.outcomes (sort_tracks (tracks_of_keys keys)).length
                    (sort_tracks (tracks_of_keys keys)) 0 []).1,
                  (sort_segments all_segments, env.outputPathStr), hsafe, ?_⟩)
                simp [run_transcription, hE, hF, hK, hemp, hP, hpr, hw]

lemma job_trace_shape (env : PipelineEnv) :
    (∃ e, job_trace env = [.markFailed e]) ∨
    (∃ n body e, SafeBody 0 n body ∧
      job_trace env = .setTotal n :: (body ++ [.markFailed e])) ∨
    (∃ n body p, SafeBody 0 n body ∧
      job_trace env = .setTotal n :: (body ++ [.markDone p])) := by
  rcases run_transcription_shape env with ⟨e, hr⟩ | ⟨n, body, e, hb, hr⟩ |
    ⟨n, body, res, hb, hr⟩
  · exact Or.inl ⟨e, by simp [job_trace, hr]⟩
  · exact Or.inr (Or.inl ⟨n, body, e, hb, by simp [job_trace, hr]⟩)
  · refine Or.inr (Or.inr ⟨n, body ++ [.appendLog "", .appendLog "Done"],
      env.outputPathStr, by simpa [List.append_assoc] using (hb.concat_log "").concat_log "Done", ?_⟩)
    simp [job_trace, hr]

lemma lifecycle_with_total (n : ℕ) (body : List JobEvent) (term : JobEvent)
    (hb : SafeBody 0 n body)
    (hterm : (∃ e, term = .markFailed e) ∨ (∃ p, term = .markDone p)) :
    List.Chain' (fun a b => a.completed ≤ b.completed)
      (statesFrom initialJobStatus (.setTotal n :: (body ++ [term]))) ∧
    (∀ st ∈ statesFrom initialJobStatus (.setTotal n :: (body ++ [term])),
      st.completed ≤ st.total) ∧
    (∀ st ∈ (statesFrom initialJobStatus (.setTotal n :: (body ++ [term]))).dropLast,
      st.state = "running") ∧
    (∀ e ∈ JobEvent.setTotal n :: body, isTerminalEvent e = false) ∧
    isTerminalEvent term = true ∧
    (∃ last, (statesFrom initialJobStatus
        (.setTotal n :: (body ++ [term]))).getLast? = some last ∧
      ((last.state = "done" ∧ last.output_path.isSome) ∨
        (last.state = "failed" ∧ last.error.isSome))) := by
  have hs1v : stepJob initialJobStatus (.setTotal n) =
      ⟨"running", 0, n, none, none, some ""⟩ := by
    simp [stepJob, initialJobStatus]
  have hinv := hb.states_invariants (stepJob initialJobStatus (.setTotal n))
    (by rw [hs1v]) (by rw [hs1v]) (by rw [hs1v]) (Nat.zero_le n)
  have hff := hb.foldl_facts (stepJob initialJobStatus (.setTotal n)) (by rw [hs1v])
  set f := body.foldl stepJob (stepJob initialJobStatus (.setTotal n)) with hfdef
  have hft : f.total = n := by rw [hff.1, hs1v]
  have hfc : f.completed ≤ n := by
    rcases hff.2.2.2.2.2 with h | h
    · exact h
    · omega
  have hstates : statesFrom initialJobStatus (.setTotal n :: (body ++ [term])) =
      initialJobStatus :: (statesFrom (stepJob initialJobStatus (.setTotal n)) body ++
        [stepJob f term]) := by
    show initialJobStatus ::
      statesFrom (stepJob initialJobStatus (.setTotal n)) (body ++ [term]) = _
    rw [statesFrom_concat, hfdef]
  obtain ⟨tl, htl⟩ := statesFrom_cons_head (stepJob initialJobStatus (.setTotal n)) body
  have hR : f.completed ≤ (stepJob f term).completed := by
    rcases hterm with ⟨e, rfl⟩ | ⟨p, rfl⟩
    · exact le_refl _
    · show f.completed ≤ f.total
      rw [hft]
      exact hfc
  have hle2 : (stepJob f term).completed ≤ (stepJob f term).total := by
    rcases hterm with ⟨e, rfl⟩ | ⟨p, rfl⟩
    · show f.completed ≤ f.total
      rw [hft]
      exact hfc
    · exact le_refl _
  have htermtrue : isTerminalEvent term = true := by
    rcases hterm with ⟨e, rfl⟩ | ⟨p, rfl⟩ <;> rfl
  have hlastprop :
      ((stepJob f term).state = "done" ∧ (stepJob f term).output_path.isSome) ∨
      ((stepJob f term).state = "failed" ∧ (stepJob f term).error.isSome) := by
    rcases hterm with ⟨e, rfl⟩ | ⟨p, rfl⟩
    · exact Or.inr ⟨rfl, rfl⟩
    · exact Or.inl ⟨rfl, rfl⟩
  have hglA : (statesFrom (stepJob initialJobStatus (.setTotal n)) body).getLast? =
      some f :=
    statesFrom_getLast? body _
  refine ⟨?_, ?_, ?_, ?_, htermtrue, ?_⟩
  · rw [hstates, htl, List.cons_append]
    refine List.chain'_cons.mpr ⟨?_, ?_⟩
    · simp [initialJobStatus, hs1v]
    · rw [← List.cons_append]
      refine List.chain'_append.mpr ⟨htl ▸ hinv.1, List.chain'_singleton _, ?_⟩
      intro x hx y hy
      rw [← htl, hglA] at hx
      simp at hx hy
      subst hx
      subst hy
      exact hR
  · rw [hstates]
    intro st hm
    rcases List.mem_cons.mp hm with rfl | hm
    · simp [initialJobStatus]
    · rcases List.mem_append.mp hm with hm | hm
      · exact (hinv.2.1 st hm).1
      · rw [List.mem_singleton.mp hm]
        exact hle2
  · rw [hstates, ← List.cons_append, List.dropLast_concat]
    intro st hm
    rcases List.mem_cons.mp hm with rfl | hm
    · simp [initialJobStatus]
    · exact (hinv.2.1 st hm).2.1
  · intro e he
    rcases List.mem_cons.mp he with rfl | he
    · rfl
    · exact hinv.2.2 e he
  · exact ⟨stepJob f term,
      by rw [hstates, ← List.cons_append, List.getLast?_concat], hlastprop⟩

/-- C5: every job's status record is created `running` with `total = 0`
and `completed = 0`; along every reachable state sequence `completed`
never decreases and `completed ≤ total` always holds; every state before
the last is still `running`, the trace contains exactly one terminal
mutation (its last event), and the final state is `done` with
`outputPath` set or `failed` with `error` set — never both. -/
theorem job_status_lifecycle (env : PipelineEnv) :
    initialJobStatus.state = "running" ∧ initialJobStatus.completed = 0 ∧
    initialJobStatus.total = 0 ∧
    (job_states env).head? = some initialJobStatus ∧
    List.Chain' (fun a b => a.completed ≤ b.completed) (job_states env) ∧
    (∀ st ∈ job_states env, st.completed ≤ st.total) ∧
    (∀ st ∈ (job_states env).dropLast, st.state = "running") ∧
    (∃ body term, job_trace env = body ++ [term] ∧
      (∀ e ∈ body, isTerminalEvent e = false) ∧ isTerminalEvent term = true) ∧
    (∃ last, (job_states env).getLast? = some last ∧
      ((last.state = "done" ∧ last.output_path.isSome) ∨
        (last.state = "failed" ∧ last.error.isSome))) := by
  have hhead : (job_states env).head? = some initialJobStatus := by
    obtain ⟨tl, h⟩ := statesFrom_cons_head initialJobStatus (job_trace env)
    rw [job_states, h]
    rfl
  refine ⟨rfl, rfl, rfl, hhead, ?_⟩
  rcases job_trace_shape env with ⟨e, htr⟩ | ⟨n, body, e, hb, htr⟩ |
    ⟨n, body, p, hb, htr⟩
  · have hstates : job_states env =
        [initialJobStatus, stepJob initialJobStatus (.markFailed e)] := by
      rw [job_states, htr]
      rfl
    refine ⟨?_, ?_, ?_, ?_, ?_⟩
    · rw [hstates]
      exact List.chain'_cons.mpr ⟨le_refl _, List.chain'_singleton _⟩
    · intro st hm
      rw [hstates] at hm
      rcases List.mem_cons.mp hm with rfl | hm
      · exact le_refl _
      · rw [List.mem_singleton.mp hm]
        exact le_refl _
    · intro st hm
      rw [hstates] at hm
      simp at hm
      rw [hm]
      rfl
    · exact ⟨[], .markFailed e, by rw [htr]; rfl, by simp, rfl⟩
    · exact ⟨stepJob initialJobStatus (.markFailed e), by rw [hstates]; rfl,
        Or.inr ⟨rfl, rfl⟩⟩
  · have ml := lifecycle_with_total n body (.markFailed e) hb (Or.inl ⟨e, rfl⟩)
    rw [job_states, htr]
    refine ⟨ml.1, ml.2.1, ml.2.2.1, ?_, ml.2.2.2.2.2⟩
    exact ⟨.setTotal n :: body, .markFailed e, by simp,
      ml.2.2.2.1, ml.2.2.2.2.1⟩
  · have ml := lifecycle_with_total n body (.markDone p) hb (Or.inr ⟨p, rfl⟩)
    rw [job_states, htr]
    refine ⟨ml.1, ml.2.1, ml.2.2.1, ?_, ml.2.2.2.2.2⟩
    exact ⟨.setTotal n :: body, .markDone p, by simp,
      ml.2.2.2.1, ml.2.2.2.2.1⟩

/-- Witness for C5 at the two-track environment: its trace ends in a
single terminal event and its final status is terminal with the
corresponding field set. -/
theorem job_status_lifecycle_witness :
    (job_states twoTrackEnv).head? = some initialJobStatus ∧
    (∃ body term, job_trace twoTrackEnv = body ++ [term] ∧
      (∀ e ∈ body, isTerminalEvent e = false) ∧ isTerminalEvent term = true) ∧
    (∃ last, (job_states twoTrackEnv).getLast? = some last ∧
      ((last.state = "done" ∧ last.output_path.isSome) ∨
        (last.state = "failed" ∧ last.error.isSome))) :=
  ⟨(job_status_lifecycle twoTrackEnv).2.2.2.1,
    (job_status_lifecycle twoTrackEnv).2.2.2.2.2.2.2.1,
    (job_status_lifecycle twoTrackEnv).2.2.2.2.2.2.2.2⟩

/-- C8: when the resolved recognizer binary path does not exist on disk,
the job's only mutation is the transition to `failed`, carrying the
actionable message that names the missing path and how to configure it;
no track is processed — the final state keeps `completed = 0` and
`total = 0`. -/
theorem missing_binary_fails_fast (env : PipelineEnv) (binaryPath modelPath : String)
    (hres : env.resolveWhisper = .ok (binaryPath, modelPath))
    (hmiss : env.binaryExists = false) :
    job_trace env = [.markFailed (whisperBinaryMissingMsg binaryPath
      env.binaryCfgEmpty env.candidatesDisplay)] ∧
    job_states env = [initialJobStatus,
      { state := "failed", completed := 0, total := 0, output_path := none,
        error := some (whisperBinaryMissingMsg binaryPath env.binaryCfgEmpty
          env.candidatesDisplay), log := some "" }] ∧
    whisperBinaryMissingMsg binaryPath env.binaryCfgEmpty env.candidatesDisplay =
      "Whisper binary not found at " ++ binaryPath ++ ". " ++
        (if env.binaryCfgEmpty then
          "Install whisper.cpp and ensure one of " ++ env.candidatesDisplay ++
            " is in PATH."
        else "Set WHISPER_BINARY to a valid local path.") := by
  have hrun : run_transcription env = ([], .error (whisperBinaryMissingMsg binaryPath
      env.binaryCfgEmpty env.candidatesDisplay)) := by
    simp [run_transcription, ensure_whisper_resources, hres, hmiss]
  refine ⟨by simp [job_trace, hrun], ?_, rfl⟩
  simp [job_states, job_trace, hrun, statesFrom, stepJob, initialJobStatus]

/-- Witness for C8 at a concrete environment with a missing binary. -/
theorem missing_binary_fails_fast_witness :
    missingBinaryEnv.resolveWhisper =
      .ok ("/opt/homebrew/bin/whisper-cli", "ggml-large-v3.bin") ∧
    missingBinaryEnv.binaryExists = false ∧
    job_trace missingBinaryEnv = [.markFailed
      (whisperBinaryMissingMsg "/opt/homebrew/bin/whisper-cli" false "cands")] := by
  refine ⟨rfl, rfl, ?_⟩
  exact (missing_binary_fails_fast missingBinaryEnv
    "/opt/homebrew/bin/whisper-cli" "ggml-large-v3.bin" rfl rfl).1

set_option maxHeartbeats 1000000 in
/-- Counterexample to C4: in `c4Env` the single track's `track_time` is
`bad`, which does not parse, yet the job succeeds and the track is NOT
skipped — it contributes its segment (anchored at offset 0.0) to the
merged output, where the claim says it contributes no segments. -/
theorem time_parse_failure_track_kept :
    parse_time_any ("bad").data = none ∧
    (run_transcription c4Env).2 = .ok ([⟨5, "alice", "hi"⟩], "10時0分0秒.txt") ∧
    ([⟨5, "alice", "hi"⟩] : List TranscriptionSegment) ≠ [] := by
  refine ⟨by decide, ?_, by simp⟩
  norm_num +decide [run_transcription, c4Env, ensure_whisper_resources,
    tracks_of_keys, parse_key, splitChar, track_time_of_file, ogg_stem,
    stripSuffixChars, sanitize_time, sort_tracks, List.insertionSort,
    List.orderedInsert, track_le, compare_time_string, parse_time_any,
    parse_hyphen_time, parse_japanese_time, parseU32, digitsToNat, from_hms_opt,
    cmpNat, process_tracks, anchor_track, anchor_track_unsorted,
    track_start_seconds, rustTrim, trimChars, rustIsWhitespace, sort_segments,
    seg_le, List.filterMap, trackLabel]

/-- C4 as amended: a time-parsing failure for a track is non-fatal, but
the track is not skipped — its anchor defaults to 0.0 seconds, so its
segments (with non-empty trimmed text) are contributed at their raw
offsets. -/
theorem time_parse_failure_amended (track_time speaker : String)
    (segments : List WhisperSegment) (h : parse_time_any track_time.data = none) :
    track_start_seconds track_time = 0 ∧
    anchor_track track_time speaker segments =
      sort_segments (segments.filterMap (fun segment =>
        if (rustTrim segment.text).data = [] then none
        else some ⟨segment.start, speaker, rustTrim segment.text⟩)) := by
  have h0 : track_start_seconds track_time = 0 := by simp [track_start_seconds, h]
  refine ⟨h0, ?_⟩
  simp [anchor_track, anchor_track_unsorted, h0]

/-- Witness for the amended C4. -/
theorem time_parse_failure_amended_witness :
    parse_time_any ("bad").data = none ∧
    anchor_track "bad" "alice" [⟨5, "hi"⟩] =
      sort_segments [⟨5, "alice", "hi"⟩] := by
  refine ⟨by decide, ?_⟩
  have h := time_parse_failure_amended "bad" "alice" [⟨5, "hi"⟩] (by decide)
  rw [h.2]
  congr 1

/-! ### Recognition output parsing -/

/-- Counterexample to C2: on the content `\x7b"segments": []\x7d` every
attempt yields zero segments and a usable companion text (`hello`)
exists, yet the operation neither falls back to the text nor fails — the
typed parse of attempt 1 succeeds and the empty list is returned as-is.
(The claim predicts the result `[⟨0.0, "hello"⟩]` here.) -/
theorem whisper_parse_no_fallback_on_empty :
    run_whisper_segments_parse "\x7b\"segments\": []\x7d" (some "hello") = .ok [] ∧
    (Except.ok [] : Except String (List WhisperSegment)) ≠ .ok [⟨0, "hello"⟩] :=
  ⟨rfl, by simp⟩

/-- C2 as amended: attempts 1 and 2, when their typed parse succeeds,
return their segment list even when empty.  When attempts 1-3 produce
nothing, the behaviour splits on the generic JSON parse of attempt 4: if
the content parses but no shape matches (attempt 5 then repeats attempt 3
verbatim and also produces nothing), the parser falls back to the
companion text — non-empty trimmed lines joined by single spaces as one
segment at 0.0 — and fails with a parse error only when that text is
missing or blank; if the content does not parse as generic JSON at all,
the operation fails with a parse error without consulting the companion
text. -/
theorem whisper_parse_fallback_amended (jsonContents : String) (txt : Option String)
    (h1 : (parseJsonText (normalize_json_contents jsonContents)).bind
      whisperJsonFromJson = none)
    (h2 : (parseJsonText (normalize_json_contents jsonContents)).bind
      whisperVecFromJson = none)
    (h3 : parse_json_lines (normalize_json_contents jsonContents) = none) :
    (∀ v, parseJsonText (normalize_json_contents jsonContents) = some v →
      extract_segments_from_value v = none →
      run_whisper_segments_parse jsonContents txt =
        (match txt with
          | some text =>
            if cleaned_txt text ≠ [] then .ok [⟨0, ⟨cleaned_txt text⟩⟩]
            else .error whisperParseErrorMsg
          | none => .error whisperParseErrorMsg)) ∧
    (parseJsonText (normalize_json_contents jsonContents) = none →
      run_whisper_segments_parse jsonContents txt = .error whisperParseErrorMsg) := by
  constructor
  · intro v hv hex
    rw [hv] at h1 h2
    simp only [Option.some_bind] at h1 h2
    simp only [run_whisper_segments_parse, hv, Option.some_bind, h1, h2, h3, hex]
  · intro hv
    simp only [run_whisper_segments_parse, hv, Option.none_bind, h3]

/-- Witness for the amended C2: the content `"hello"` (a JSON string no
shape matches) with companion text lines `a` and `b` produces the single
fallback segment `(0.0, "a b")`. -/
theorem whisper_parse_fallback_amended_witness :
    (parseJsonText (normalize_json_contents "\"hello\"")).bind whisperJsonFromJson =
      none ∧
    parse_json_lines (normalize_json_contents "\"hello\"") = none ∧
    parseJsonText (normalize_json_contents "\"hello\"") = some (.str "hello") ∧
    run_whisper_segments_parse "\"hello\"" (some " a \n\n b ") = .ok [⟨0, "a b"⟩] := by
  refine ⟨rfl, rfl, rfl, ?_⟩
  have h := (whisper_parse_fallback_amended "\"hello\"" (some " a \n\n b ")
    rfl rfl rfl).1 (.str "hello") rfl rfl
  rw [h]
  rfl

/-- Counterexample to C3: on `c3Value` — `text` non-empty, no numeric
`start`, an `offsets` object present but without `from`, and a numeric
`t0` of 500 — the claim's priority order takes `t0 / 100 = 5.0`, but the
code's priority is keyed on the mere presence of the `offsets` container:
it takes `offsets.from` (missing, hence 0.0) divided by 1000 and never
reaches `t0`. -/
theorem segment_start_priority_counterexample :
    segment_from_value c3Value = some ⟨0, "hi"⟩ ∧
    claim_start_priority c3Value = 5 ∧ (0 : ℚ) ≠ 5 := by
  refine ⟨?_, ?_, by norm_num⟩
  · simp [segment_from_value, c3Value, Json.get, Json.asNum, Json.asStr, rustTrim,
      trimChars, rustIsWhitespace, List.find?, Option.getD]
  · simp [claim_start_priority, c3Value, Json.get, Json.asNum, Json.asStr,
      List.find?, parse_timestamp_to_seconds]
    norm_num

/-- C3 as amended: the structural parser skips an element that is not an
object or whose (defaulted) `text` trims to empty; otherwise its start is
the numeric `start` field if one exists, and failing that the priority is
keyed on container-field presence — if `offsets` is present,
`offsets.from / 1000` (0.0 when `from` is missing or non-numeric); else
if `timestamps` is present, the parsed string `timestamps.from` (0.0 when
missing, non-string or unparseable); else a numeric `t0 / 100`; else
0.0. -/
theorem segment_start_priority_amended (value : Json) (seg : WhisperSegment)
    (h : segment_from_value value = some seg) :
    (∃ fields, value = .obj fields) ∧
    (rustTrim seg.text).data ≠ [] ∧
    seg.text = ((value.get "text").bind Json.asStr).getD "" ∧
    ((∃ s, (value.get "start").bind Json.asNum = some s ∧ seg.start = s) ∨
     ((value.get "start").bind Json.asNum = none ∧
       (∃ offsets, value.get "offsets" = some offsets ∧
         seg.start = (((offsets.get "from").bind Json.asNum).getD 0) / 1000)) ∨
     ((value.get "start").bind Json.asNum = none ∧ value.get "offsets" = none ∧
       (∃ timestamps, value.get "timestamps" = some timestamps ∧
         seg.start = ((((timestamps.get "from").bind Json.asStr).bind
           parse_timestamp_to_seconds).getD 0))) ∨
     ((value.get "start").bind Json.asNum = none ∧ value.get "offsets" = none ∧
       value.get "timestamps" = none ∧
       (∃ t0, (value.get "t0").bind Json.asNum = some t0 ∧ seg.start = t0 / 100)) ∨
     ((value.get "start").bind Json.asNum = none ∧ value.get "offsets" = none ∧
       value.get "timestamps" = none ∧ (value.get "t0").bind Json.asNum = none ∧
       seg.start = 0)) := by
  cases value with
  | null => exact absurd h (by simp [segment_from_value])
  | bool b => exact absurd h (by simp [segment_from_value])
  | num q => exact absurd h (by simp [segment_from_value])
  | str s => exact absurd h (by simp [segment_from_value])
  | arr elems => exact absurd h (by simp [segment_from_value])
  | obj fields =>
    refine ⟨⟨fields, rfl⟩, ?_⟩
    simp only [segment_from_value] at h
    split at h
    · exact absurd h (by simp)
    · rename_i htext
      injection h with h
      subst h
      refine ⟨htext, rfl, ?_⟩
      split
      · rename_i s hs
        exact Or.inl ⟨s, hs, rfl⟩
      · rename_i hs
        split
        · rename_i offsets hoff
          exact Or.inr (Or.inl ⟨hs, offsets, hoff, rfl⟩)
        · rename_i hoff
          split
          · rename_i timestamps hts
            exact Or.inr (Or.inr (Or.inl ⟨hs, hoff, timestamps, hts, rfl⟩))
          · rename_i hts
            split
            · rename_i t0 ht0
              exact Or.inr (Or.inr (Or.inr (Or.inl ⟨hs, hoff, hts, t0, ht0, rfl⟩)))
            · rename_i ht0
              exact Or.inr (Or.inr (Or.inr (Or.inr ⟨hs, hoff, hts, ht0, rfl⟩)))

/-- Witness for the amended C3: a numeric `start` wins. -/
theorem segment_start_priority_amended_witness :
    segment_from_value (.obj [("text", .str "hi"), ("start", .num 7)]) =
      some ⟨7, "hi"⟩ ∧
    (∃ fields, (Json.obj [("text", .str "hi"), ("start", .num 7)]) = .obj fields) := by
  have hv : segment_from_value (.obj [("text", .str "hi"), ("start", .num 7)]) =
      some ⟨7, "hi"⟩ := by
    simp [segment_from_value, Json.get, Json.asNum, Json.asStr, rustTrim, trimChars,
      rustIsWhitespace, List.find?]
  exact ⟨hv, (segment_start_priority_amended _ ⟨7, "hi"⟩ hv).1⟩

/-! ### Rendering -/

lemma natToCharsAux_ne_newline :
    ∀ (fuel n : ℕ) (c : Char), c ∈ natToCharsAux fuel n → c ≠ '\n'
  | 0, n, c => by simp [natToCharsAux]
  | fuel + 1, n, c => by
    intro hm
    by_cases h : n < 10
    · simp [natToCharsAux, h] at hm
      subst hm
      interval_cases n <;> decide
    · simp [natToCharsAux, h] at hm
      rcases hm with hm | hm
      · exact natToCharsAux_ne_newline fuel (n / 10) c hm
      · subst hm
        have hlt : n % 10 < 10 := Nat.mod_lt _ (by omega)
        set d := n % 10 with hd
        clear_value d
        interval_cases d <;> decide

lemma newline_not_mem_natToString (n : ℕ) : ('\n') ∉ (natToString n).data :=
  fun hm => natToCharsAux_ne_newline (n + 1) n _ hm rfl

lemma newline_not_mem_pad2 (n : ℕ) : ('\n') ∉ (pad2 n).data := by
  unfold pad2
  by_cases h : n < 10
  · rw [if_pos h, String.data_append]
    intro hm
    rcases List.mem_append.mp hm with hm | hm
    · exact absurd hm (by decide)
    · exact newline_not_mem_natToString n hm
  · rw [if_neg h]
    exact newline_not_mem_natToString n

lemma newline_not_mem_format_seconds (q : ℚ) : ('\n') ∉ (format_seconds q).data := by
  unfold format_seconds
  intro hm
  rw [String.data_append, String.data_append, String.data_append,
    String.data_append] at hm
  rcases List.mem_append.mp hm with hm | hm
  · rcases List.mem_append.mp hm with hm | hm
    · rcases List.mem_append.mp hm with hm | hm
      · rcases List.mem_append.mp hm with hm | hm
        · exact newline_not_mem_pad2 _ hm
        · exact absurd hm (by decide)
      · exact newline_not_mem_pad2 _ hm
    · exact absurd hm (by decide)
  · exact newline_not_mem_pad2 _ hm

lemma count_newline_render_line (ts sp : Bool) (s : TranscriptionSegment)
    (hT : ('\n') ∉ s.text.data) (hS : ('\n') ∉ s.speaker.data) :
    ((render_line ts sp s).data.count '\n') = 1 := by
  have hfs := newline_not_mem_format_seconds s.start
  cases ts <;> cases sp <;>
    simp [render_line, String.data_append, List.count_append,
      List.count_eq_zero.mpr hT, List.count_eq_zero.mpr hS,
      List.count_eq_zero.mpr hfs, List.count_cons, List.count_nil]

lemma render_step_data (ts sp : Bool) (out : String) (s : TranscriptionSegment) :
    (render_step ts sp out s).data = out.data ++ (render_line ts sp s).data := by
  cases ts <;> cases sp <;>
    simp [render_step, render_line, String.data_append, List.append_assoc]

lemma format_fold (ts sp : Bool) :
    ∀ (segs : List TranscriptionSegment) (out : String),
      (segs.foldl (render_step ts sp) out).data =
        out.data ++ (segs.map (fun s => (render_line ts sp s).data)).flatten
  | [], out => by simp
  | s :: segs, out => by
    rw [List.foldl_cons, format_fold ts sp segs (render_step ts sp out s),
      render_step_data]
    simp [List.append_assoc]

lemma count_flatten_render (ts sp : Bool) :
    ∀ segs : List TranscriptionSegment,
      (∀ s ∈ segs, ('\n') ∉ s.text.data ∧ ('\n') ∉ s.speaker.data) →
      ((segs.map (fun s => (render_line ts sp s).data)).flatten.count '\n') =
        segs.length
  | [], _ => rfl
  | s :: segs, hfree => by
    have hs := hfree s (List.mem_cons_self s segs)
    rw [List.map_cons, List.flatten_cons, List.count_append,
      count_newline_render_line ts sp s hs.1 hs.2,
      count_flatten_render ts sp segs (fun t ht => hfree t (List.mem_cons_of_mem s ht))]
    simp [Nat.add_comm]

/-- C9: rendering is a pure function of the segment list and the two
flags — the output is exactly the concatenation of one `render_line`
chunk per segment (whose four flag-dependent shapes are `HH:MM:SS`
prefixes and full-width-colon speaker joins as `render_line` defines);
rendering twice is byte-identical by purity; and for newline-free
segment fields the output has exactly one newline per segment. -/
theorem format_segments_spec (segments : List TranscriptionSegment)
    (include_timestamps include_speaker : Bool) :
    (format_segments segments include_timestamps include_speaker).data =
      (segments.map
        (fun s => (render_line include_timestamps include_speaker s).data)).flatten ∧
    format_segments segments include_timestamps include_speaker =
      format_segments segments include_timestamps include_speaker ∧
    ((∀ s ∈ segments, ('\n') ∉ s.text.data ∧ ('\n') ∉ s.speaker.data) →
      ((format_segments segments include_timestamps include_speaker).data.count
        '\n') = segments.length) := by
  have hdata : (format_segments segments include_timestamps include_speaker).data =
      (segments.map
        (fun s => (render_line include_timestamps include_speaker s).data)).flatten := by
    unfold format_segments
    rw [format_fold]
    rfl
  refine ⟨hdata, rfl, ?_⟩
  intro hfree
  rw [hdata]
  exact count_flatten_render include_timestamps include_speaker segments hfree

/-- Witness for C9: the four flag combinations at a concrete segment, and
the one-line-per-segment count through the theorem. -/
theorem format_segments_spec_witness :
    format_segments [⟨0, "bob", "hello"⟩] true true = "00:00:00 bob：hello\n" ∧
    format_segments [⟨0, "bob", "hello"⟩] true false = "00:00:00 hello\n" ∧
    format_segments [⟨0, "bob", "hello"⟩] false true = "bob：hello\n" ∧
    format_segments [⟨0, "bob", "hello"⟩] false false = "hello\n" ∧
    ((format_segments [⟨0, "bob", "hello"⟩] true true).data.count '\n') = 1 := by
  have hc := (format_segments_spec [⟨0, "bob", "hello"⟩] true true).2.2 (by decide)
  refine ⟨?_, ?_, ?_, ?_, by simpa using hc⟩ <;>
    · norm_num [format_segments, render_step, format_seconds, pad2, natToString,
        natToCharsAux]
      decide
